import Mathlib

/-
  Verification of the git_info_llama extraction-and-batch-persistence pipeline
  (src/main.rs) against its natural-language specification.

  The Rust program walks a git repository's commit graph and reference set,
  normalizes each commit / reference into a flat record, and persists the
  records into a SQLite database in chunks.  The shallow embedding below
  models the database as explicit state (lists of rows with primary-key
  checks on insert), transactions as commit-or-discard scopes, and each
  run as a function producing the final visible database state, the event
  trace (transaction boundaries, insert attempts, log lines) and an
  optional fatal error (the Rust code aborts the process on the first
  persistence error, via expect or error propagation to main).
-/

namespace GitInfoLlama

/-- CommitDetails (src/main.rs lines 52-58): one normalized commit record. -/
structure CommitDetails where
  id : String
  author : String
  date : Int
  message : String
  parents : List String
deriving DecidableEq

/-- RefDetails (src/main.rs lines 59-63): one normalized reference record. -/
structure RefDetails where
  name : String
  id : String
  kind : String
deriving DecidableEq

/-- Raw commit data as supplied by the graph source (git2 Commit):
    author name and message are optional, parent ids are an ordered list. -/
structure RawCommit where
  id : String
  authorName : Option String
  timeSeconds : Int
  message : Option String
  parent_ids : List String
deriving DecidableEq

/-- git2 ReferenceType: a reference is direct or symbolic (or unknown). -/
inductive ReferenceType where
  | Direct : ReferenceType
  | Symbolic : ReferenceType
deriving DecidableEq

/-- Raw reference data as supplied by the graph source (git2 Reference):
    name, resolved target and kind may each be absent. -/
structure RawReference where
  name : Option String
  target : Option String
  kind : Option ReferenceType
deriving DecidableEq

/-- The repository handle: the materialized revwalk (each item may be an
    error, matching the Result items the revwalk iterator yields), the
    commit lookup, and the materialized reference iterator. -/
structure Repository where
  revwalk : List (Except String String)
  find_commit : String → RawCommit
  references : List (Except String RawReference)

/-- Observable events of a run: transaction boundaries, row-insert
    attempts, and log lines printed to the console. -/
inductive Event where
  | txBegin : Event
  | txCommit : Event
  | txRollback : Event
  | insertDetails : String → Event
  | insertRelation : String → String → Event
  | insertRef : String → String → Event
  | printLine : String → Event
deriving DecidableEq

def Event.isTxBegin : Event → Bool
  | Event.txBegin => true
  | _ => false

def Event.isCommitInsert : Event → Bool
  | Event.insertDetails _ => true
  | Event.insertRelation _ _ => true
  | _ => false

def Event.isRefInsert : Event → Bool
  | Event.insertRef _ _ => true
  | _ => false

def Event.isInsert : Event → Bool
  | Event.insertDetails _ => true
  | Event.insertRelation _ _ => true
  | Event.insertRef _ _ => true
  | _ => false

def Event.isPrint : Event → Bool
  | Event.printLine _ => true
  | _ => false

/-- The SQLite database state: whether the schema exists, and the rows of
    the three tables, in insertion order.
    commit_details(id PRIMARY KEY, author, date, message);
    commit_relation(parent, child, PRIMARY KEY (parent, child));
    ref_details(name, id, kind, PRIMARY KEY (name, id)). -/
structure Db where
  tablesExist : Bool
  commit_details : List (String × String × Int × String)
  commit_relation : List (String × String)
  ref_details : List (String × String × String)
deriving DecidableEq

/-- A destination on which the schema has been created and no rows exist. -/
def freshDb : Db :=
  { tablesExist := true, commit_details := [], commit_relation := [], ref_details := [] }

/-- Projection of a run result to final state and error, discarding the
    event trace. -/
def stErr (x : Db × List Event × Option String) : Db × Option String :=
  (x.1, x.2.2)

/-! ### Chunking

Rust slice chunks(n): successive sub-slices of length n, the last possibly
shorter, none empty.  Defined with a structural fuel argument (the list
length) so that it evaluates by kernel reduction. -/

def chunksOfFuel (n : Nat) : Nat → List α → List (List α)
  | _, [] => []
  | 0, _ :: _ => []
  | fuel + 1, x :: xs => ((x :: xs).take n) :: chunksOfFuel n fuel ((x :: xs).drop n)

/-- chunks(n) over a slice, as used at src/main.rs lines 104, 170 and 207. -/
def chunksOf (n : Nat) (l : List α) : List (List α) :=
  chunksOfFuel n l.length l

/-! ### Normalization (src/main.rs lines 122-137 and 186-200) -/

/-- extract_commit_details: normalize one raw commit, substituting the
    fallbacks for a missing author name and a missing message. -/
def extract_commit_details (commit : RawCommit) : CommitDetails :=
  { id := commit.id
    author := (commit.authorName).getD "Unknown"
    date := commit.timeSeconds
    message := (commit.message).getD "No message"
    parents := commit.parent_ids }

/-- extract_ref_details: normalize one raw reference, substituting the
    empty string for a missing name, the string Unknown for an
    unresolvable target, and mapping the reference kind. -/
def extract_ref_details (reference : RawReference) : RefDetails :=
  { name := (reference.name).getD ""
    id := match reference.target with
          | some target => target
          | none => "Unknown"
    kind := match reference.kind with
            | some ReferenceType.Direct => "Direct"
            | some ReferenceType.Symbolic => "Symbolic"
            | none => "Unknown" }

/-! ### Row inserts with primary-key checks

Each insert models one parameterized SQLite INSERT: it fails when the
schema is missing or when the row's primary key is already present. -/

def rowOf (c : CommitDetails) : String × String × Int × String :=
  (c.id, c.author, c.date, c.message)

def edgesOf (c : CommitDetails) : List (String × String) :=
  c.parents.map (fun p => (p, c.id))

def refRowOf (r : RefDetails) : String × String × String :=
  (r.name, r.id, r.kind)

def insertCommitDetailsRow (db : Db) (c : CommitDetails) : Except String Db :=
  if db.tablesExist = false then Except.error "no such table: commit_details"
  else if db.commit_details.any (fun row => row.1 == c.id) then
    Except.error "UNIQUE constraint failed: commit_details.id"
  else Except.ok { db with commit_details := db.commit_details ++ [rowOf c] }

def insertCommitRelationRow (db : Db) (parent child : String) : Except String Db :=
  if db.tablesExist = false then Except.error "no such table: commit_relation"
  else if db.commit_relation.any (fun row => row.1 == parent && row.2 == child) then
    Except.error "UNIQUE constraint failed: commit_relation.parent, commit_relation.child"
  else Except.ok { db with commit_relation := db.commit_relation ++ [(parent, child)] }

def insertRefDetailsRow (db : Db) (r : RefDetails) : Except String Db :=
  if db.tablesExist = false then Except.error "no such table: ref_details"
  else if db.ref_details.any (fun row => row.1 == r.name && row.2.1 == r.id) then
    Except.error "UNIQUE constraint failed: ref_details.name, ref_details.id"
  else Except.ok { db with ref_details := db.ref_details ++ [refRowOf r] }

/-! ### batch_insert_commits (src/main.rs lines 139-162)

For EACH CommitDetails record the Rust code begins a new transaction,
inserts the commit_details row, then that record's commit_relation rows,
and commits; an insert failure (error propagation from the details
insert, or the expect panic on a relation insert) drops the transaction,
which rolls it back, and aborts the run. -/

/-- The relation-insert loop of one record's transaction: returns the
    insert-attempt events and the transaction state or first error. -/
def insertRelationsLoop (db : Db) (child : String) :
    List String → List Event × Except String Db
  | [] => ([], Except.ok db)
  | p :: rest =>
    match insertCommitRelationRow db p child with
    | Except.error e => ([Event.insertRelation p child], Except.error e)
    | Except.ok db1 =>
      match insertRelationsLoop db1 child rest with
      | (evs, res) => (Event.insertRelation p child :: evs, res)

/-- The body of one record's transaction: the commit_details insert
    followed by all of that record's commit_relation inserts. -/
def commitTxBody (db : Db) (c : CommitDetails) : List Event × Except String Db :=
  match insertCommitDetailsRow db c with
  | Except.error e => ([Event.insertDetails c.id], Except.error e)
  | Except.ok db1 =>
    match insertRelationsLoop db1 c.id c.parents with
    | (evs, res) => (Event.insertDetails c.id :: evs, res)

/-- batch_insert_commits: one transaction per record; on the first failing
    transaction the work of that transaction is discarded and the error is
    returned (main's expect then aborts the process). -/
def batch_insert_commits (db : Db) : List CommitDetails → Db × List Event × Option String
  | [] => (db, [], none)
  | c :: rest =>
    match commitTxBody db c with
    | (evs, Except.error e) =>
      (db, Event.txBegin :: evs ++ [Event.txRollback], some e)
    | (evs, Except.ok db1) =>
      match batch_insert_commits db1 rest with
      | (db2, evs2, r2) =>
        (db2, Event.txBegin :: evs ++ [Event.txCommit] ++ evs2, r2)

/-! ### get_commits_detail_array (src/main.rs lines 98-120) -/

/-- The per-chunk collection loop: an Ok oid is looked up and normalized,
    an Err item is logged and skipped. -/
def collectChunk (repo : Repository) :
    List (Except String String) → List CommitDetails × List Event
  | [] => ([], [])
  | Except.ok oid :: rest =>
    match collectChunk repo rest with
    | (cs, evs) => (extract_commit_details (repo.find_commit oid) :: cs, evs)
  | Except.error e :: rest =>
    match collectChunk repo rest with
    | (cs, evs) => (cs, Event.printLine ("Failed to process commit: " ++ e) :: evs)

/-- The chunk loop of the commit sub-pipeline: collect each chunk's
    records, batch-insert them, stop on the first batch failure. -/
def commitChunksLoop (repo : Repository) (db : Db) :
    List (List (Except String String)) → Db × List Event × Option String
  | [] => (db, [], none)
  | chunk :: rest =>
    match collectChunk repo chunk with
    | (cs, pevs) =>
      match batch_insert_commits db cs with
      | (db1, ievs, some e) => (db1, pevs ++ ievs, some e)
      | (db1, ievs, none) =>
        match commitChunksLoop repo db1 rest with
        | (db2, evs2, r2) => (db2, pevs ++ ievs ++ evs2, r2)

/-- get_commits_detail_array: materialize the revwalk, chunk it by 50,
    and process the chunks sequentially. -/
def get_commits_detail_array (db : Db) (repo : Repository) :
    Db × List Event × Option String :=
  commitChunksLoop repo db (chunksOf 50 repo.revwalk)

/-- The flat record sequence the commit sub-pipeline persists. -/
def commitRecords (repo : Repository) : List CommitDetails :=
  (collectChunk repo repo.revwalk).1

/-! ### batch_insert_refs (src/main.rs lines 202-221)

One transaction per inner chunk of 50, inserting every ref_details row
of the chunk, then committing; a failure drops (rolls back) the open
transaction and is returned to the caller, whose expect aborts. -/

/-- The insert loop of one refs transaction. -/
def refsTxBody (db : Db) : List RefDetails → List Event × Except String Db
  | [] => ([], Except.ok db)
  | r :: rest =>
    match insertRefDetailsRow db r with
    | Except.error e => ([Event.insertRef r.name r.id], Except.error e)
    | Except.ok db1 =>
      match refsTxBody db1 rest with
      | (evs, res) => (Event.insertRef r.name r.id :: evs, res)

/-- The transaction-per-chunk loop inside batch_insert_refs. -/
def refTxChunksLoop (db : Db) : List (List RefDetails) → Db × List Event × Option String
  | [] => (db, [], none)
  | chunk :: rest =>
    match refsTxBody db chunk with
    | (evs, Except.error e) =>
      (db, Event.txBegin :: evs ++ [Event.txRollback], some e)
    | (evs, Except.ok db1) =>
      match refTxChunksLoop db1 rest with
      | (db2, evs2, r2) =>
        (db2, Event.txBegin :: evs ++ [Event.txCommit] ++ evs2, r2)

/-- batch_insert_refs: re-partitions its input into chunks of 50 and runs
    one transaction per chunk. -/
def batch_insert_refs (db : Db) (refs : List RefDetails) : Db × List Event × Option String :=
  refTxChunksLoop db (chunksOf 50 refs)

/-! ### get_ref_details (src/main.rs lines 164-184) -/

/-- The per-chunk reference collection loop: an Ok reference is
    normalized, an Err item is logged and skipped. -/
def collectRefChunk : List (Except String RawReference) → List RefDetails × List Event
  | [] => ([], [])
  | Except.ok reference :: rest =>
    match collectRefChunk rest with
    | (rs, evs) => (extract_ref_details reference :: rs, evs)
  | Except.error e :: rest =>
    match collectRefChunk rest with
    | (rs, evs) => (rs, Event.printLine ("Failed to process reference: " ++ e) :: evs)

/-- The chunk loop of the reference sub-pipeline. -/
def refChunksLoop (db : Db) :
    List (List (Except String RawReference)) → Db × List Event × Option String
  | [] => (db, [], none)
  | chunk :: rest =>
    match collectRefChunk chunk with
    | (rs, pevs) =>
      match batch_insert_refs db rs with
      | (db1, ievs, some e) => (db1, pevs ++ ievs, some e)
      | (db1, ievs, none) =>
        match refChunksLoop db1 rest with
        | (db2, evs2, r2) => (db2, pevs ++ ievs ++ evs2, r2)

/-- get_ref_details: materialize the references, chunk them by 50, and
    process the chunks sequentially. -/
def get_ref_details (db : Db) (repo : Repository) : Db × List Event × Option String :=
  refChunksLoop db (chunksOf 50 repo.references)

/-- The flat record sequence the reference sub-pipeline persists. -/
def refRecords (repo : Repository) : List RefDetails :=
  (collectRefChunk repo.references).1

/-! ### main (src/main.rs lines 22-50 and 65-96) -/

/-- create_database: the one-time schema creation; fails when the tables
    already exist (CREATE TABLE without IF NOT EXISTS). -/
def createDatabase (db : Db) : Except String Db :=
  if db.tablesExist then Except.error "table commit_details already exists"
  else Except.ok { db with tablesExist := true }

/-- The two sub-pipelines of main, in their fixed order: commits first,
    references second; a commit-phase failure aborts before any reference
    processing. -/
def runPipeline (db : Db) (repo : Repository) : Db × List Event × Option String :=
  match get_commits_detail_array db repo with
  | (db1, evs1, some e) => (db1, evs1, some e)
  | (db1, evs1, none) =>
    match get_ref_details db1 repo with
    | (db2, evs2, r2) => (db2, evs1 ++ evs2, r2)

/-- main after opening the connection: when the destination did not exist
    beforehand, create_database is attempted and its result is only
    printed (Ok and Err alike); the pipeline then runs in every case. -/
def mainRun (dbExists : Bool) (db : Db) (repo : Repository) :
    Db × List Event × Option String :=
  if dbExists then runPipeline db repo
  else
    match createDatabase db with
    | Except.ok db1 =>
      match runPipeline db1 repo with
      | (d, evs, r) =>
        (d, Event.printLine "Database and tables created successfully!" :: evs, r)
    | Except.error e =>
      match runPipeline db repo with
      | (d, evs, r) =>
        (d, Event.printLine ("Error: " ++ e) :: evs, r)

/-! ### Shape of a successful commit transaction -/

/-- The state change of one successfully committed record transaction:
    the record's commit_details row followed by its commit_relation rows. -/
def okApplyCommit (db : Db) (c : CommitDetails) : Db :=
  { db with commit_details := db.commit_details ++ [rowOf c],
            commit_relation := db.commit_relation ++ edgesOf c }

/-- The state after a sequence of record transactions all commit. -/
def applyAllCommits (db : Db) (l : List CommitDetails) : Db :=
  l.foldl okApplyCommit db

/-! ### Sequential transaction discipline of an event trace

runTxState scans a trace with the at-most-one-open-transaction
discipline: a transaction may only begin when none is open, may only be
closed when open, and row inserts may only happen inside an open
transaction.  A trace t is sequentially well-formed from a closed state
precisely when runTxState false t = some false. -/

def runTxState : Bool → List Event → Option Bool
  | b, [] => some b
  | b, Event.txBegin :: rest => if b then none else runTxState true rest
  | b, Event.txCommit :: rest => if b then runTxState false rest else none
  | b, Event.txRollback :: rest => if b then runTxState false rest else none
  | b, Event.insertDetails _ :: rest => if b then runTxState true rest else none
  | b, Event.insertRelation _ _ :: rest => if b then runTxState true rest else none
  | b, Event.insertRef _ _ :: rest => if b then runTxState true rest else none
  | b, Event.printLine _ :: rest => runTxState b rest

/-! ### Concrete instances used by counterexamples and witnesses -/

/-- A repository with one root commit and one direct branch reference. -/
def repoSingle : Repository :=
  { revwalk := [Except.ok "a"]
    find_commit := fun oid =>
      { id := oid, authorName := some "alice", timeSeconds := 0,
        message := some "init", parent_ids := [] }
    references := [Except.ok { name := some "refs/heads/main", target := some "a",
                               kind := some ReferenceType.Direct }] }

/-- A repository with a merge commit (two parents) and two root commits. -/
def repoMerge : Repository :=
  { revwalk := [Except.ok "m", Except.ok "a", Except.ok "b"]
    find_commit := fun oid =>
      if oid = "m" then
        { id := "m", authorName := some "carol", timeSeconds := 2,
          message := some "merge", parent_ids := ["a", "b"] }
      else
        { id := oid, authorName := none, timeSeconds := 0,
          message := none, parent_ids := [] }
    references := [] }

/-- A repository whose revwalk and reference iterator each yield one
    per-item error besides an ordinary item. -/
def repoSkip : Repository :=
  { revwalk := [Except.error "object not found", Except.ok "a"]
    find_commit := fun oid =>
      { id := oid, authorName := some "alice", timeSeconds := 0,
        message := some "init", parent_ids := [] }
    references := [Except.error "invalid reference"] }

/-- One chunk of two records, as the batching step may produce. -/
def chunkTwo : List CommitDetails :=
  [{ id := "a", author := "alice", date := 0, message := "m", parents := [] },
   { id := "b", author := "bob", date := 1, message := "n", parents := [] }]

/-- A destination that already holds the second record's primary key. -/
def dbWithB : Db :=
  { tablesExist := true, commit_details := [("b", "bob", 1, "n")],
    commit_relation := [], ref_details := [] }

def rawOrphanCommit : RawCommit :=
  { id := "x", authorName := none, timeSeconds := 5, message := none, parent_ids := [] }

def rawBrokenRef : RawReference := { name := none, target := none, kind := none }

def oneRef : RefDetails := { name := "refs/heads/main", id := "a", kind := "Direct" }

/-- Modelled from the spec: the behaviour claim C10 ascribes to
    batch_insert_refs on one driver-passed slice - open a single
    transaction, insert every ref_details row of the slice, and commit
    (roll back and fail on the first failing insert). -/
def batch_insert_refs_single (db : Db) (refs : List RefDetails) :
    Db × List Event × Option String :=
  match refsTxBody db refs with
  | (evs, Except.error e) => (db, Event.txBegin :: evs ++ [Event.txRollback], some e)
  | (evs, Except.ok db1) => (db1, Event.txBegin :: evs ++ [Event.txCommit], none)

theorem chunksOfFuel_nil (n fuel : Nat) : chunksOfFuel n fuel ([] : List α) = [] := by
  cases fuel <;> rfl

theorem chunksOfFuel_flatten (n : Nat) (hn : 0 < n) :
    ∀ (fuel : Nat) (l : List α), l.length ≤ fuel → (chunksOfFuel n fuel l).flatten = l := by
  intro fuel
  induction fuel with
  | zero =>
    intro l hl
    cases l with
    | nil => rfl
    | cons x xs => simp at hl
  | succ f ih =>
    intro l hl
    cases l with
    | nil => rfl
    | cons x xs =>
      have hdrop : ((x :: xs).drop n).length ≤ f := by
        simp only [List.length_drop, List.length_cons] at *
        omega
      simp only [chunksOfFuel, List.flatten_cons]
      rw [ih _ hdrop, List.take_append_drop]

theorem chunksOf_flatten (n : Nat) (hn : 0 < n) (l : List α) :
    (chunksOf n l).flatten = l :=
  chunksOfFuel_flatten n hn l.length l (Nat.le_refl _)

theorem chunksOfFuel_mem (n : Nat) (hn : 0 < n) :
    ∀ (fuel : Nat) (l : List α) (c : List α), c ∈ chunksOfFuel n fuel l →
      c.length ≤ n ∧ c ≠ [] := by
  intro fuel
  induction fuel with
  | zero =>
    intro l c hc
    cases l with
    | nil => simp [chunksOfFuel] at hc
    | cons x xs => simp [chunksOfFuel] at hc
  | succ f ih =>
    intro l c hc
    cases l with
    | nil => simp [chunksOfFuel] at hc
    | cons x xs =>
      simp only [chunksOfFuel, List.mem_cons] at hc
      rcases hc with hc | hc
      · subst hc
        constructor
        · exact List.length_take_le n _
        · intro h
          have hlen := congrArg List.length h
          rw [List.length_take] at hlen
          simp only [List.length_nil, List.length_cons] at hlen
          omega
      · exact ih _ _ hc

theorem chunksOf_mem (n : Nat) (hn : 0 < n) (l : List α) (c : List α)
    (hc : c ∈ chunksOf n l) : c.length ≤ n ∧ c ≠ [] :=
  chunksOfFuel_mem n hn l.length l c hc

theorem chunksOfFuel_dropLast (n : Nat) (hn : 0 < n) :
    ∀ (fuel : Nat) (l : List α), l.length ≤ fuel →
      ∀ c ∈ (chunksOfFuel n fuel l).dropLast, c.length = n := by
  intro fuel
  induction fuel with
  | zero =>
    intro l hl c hc
    cases l with
    | nil => simp [chunksOfFuel] at hc
    | cons x xs => simp at hl
  | succ f ih =>
    intro l hl c hc
    cases l with
    | nil => simp [chunksOfFuel] at hc
    | cons x xs =>
      by_cases hdrop : (x :: xs).drop n = []
      · simp only [chunksOfFuel, hdrop, chunksOfFuel_nil, List.dropLast_single] at hc
        simp at hc
      · have hlen : n < (x :: xs).length := by
          by_contra hcon
          push_neg at hcon
          exact hdrop (List.drop_eq_nil_of_le hcon)
        have hrest : chunksOfFuel n f ((x :: xs).drop n) ≠ [] := by
          cases hdx : (x :: xs).drop n with
          | nil => exact absurd hdx hdrop
          | cons y ys =>
            cases f with
            | zero =>
              exfalso
              have hle1 : (x :: xs).length ≤ 1 := hl
              have hd0 : (x :: xs).drop n = [] :=
                List.drop_eq_nil_of_le (by omega)
              rw [hdx] at hd0
              simp at hd0
            | succ g => simp [hdx, chunksOfFuel]
        simp only [chunksOfFuel] at hc
        rw [List.dropLast_cons_of_ne_nil hrest] at hc
        rcases List.mem_cons.mp hc with hc | hc
        · subst hc
          have h2 : (x :: xs).length = xs.length + 1 := rfl
          simp [List.length_take]
          omega
        · have hdlen : ((x :: xs).drop n).length ≤ f := by
            have h1 : ((x :: xs).drop n).length = (x :: xs).length - n := by
              simp [List.length_drop]
            have h2 : (x :: xs).length = xs.length + 1 := rfl
            omega
          exact ih _ hdlen c hc

theorem chunksOf_dropLast (n : Nat) (hn : 0 < n) (l : List α) :
    ∀ c ∈ (chunksOf n l).dropLast, c.length = n :=
  chunksOfFuel_dropLast n hn l.length l (Nat.le_refl _)

theorem chunksOf_singleton (n : Nat) (l : List α)
    (hne : l ≠ []) (hle : l.length ≤ n) : chunksOf n l = [l] := by
  cases l with
  | nil => exact absurd rfl hne
  | cons x xs =>
    have htake : (x :: xs).take n = x :: xs := List.take_of_length_le hle
    have hdrop : (x :: xs).drop n = [] := List.drop_eq_nil_of_le hle
    simp only [chunksOf, List.length_cons, chunksOfFuel, htake, hdrop, chunksOfFuel_nil]

theorem applyAllCommits_cons (db : Db) (c : CommitDetails) (l : List CommitDetails) :
    applyAllCommits db (c :: l) = applyAllCommits (okApplyCommit db c) l := rfl

theorem applyAllCommits_eq (l : List CommitDetails) : ∀ db : Db,
    applyAllCommits db l =
      { db with commit_details := db.commit_details ++ l.map rowOf,
                commit_relation := db.commit_relation ++ (l.map edgesOf).flatten } := by
  induction l with
  | nil => intro db; simp [applyAllCommits]
  | cons c cs ih =>
    intro db
    rw [applyAllCommits_cons, ih]
    simp [okApplyCommit, List.append_assoc]

theorem isCommitInsert_isTxBegin {ev : Event} (h : Event.isCommitInsert ev = true) :
    Event.isTxBegin ev = false := by
  cases ev <;> simp_all [Event.isCommitInsert, Event.isTxBegin]

theorem isCommitInsert_isInsert {ev : Event} (h : Event.isCommitInsert ev = true) :
    Event.isInsert ev = true := by
  cases ev <;> simp_all [Event.isCommitInsert, Event.isInsert]

theorem isCommitInsert_isRefInsert {ev : Event} (h : Event.isCommitInsert ev = true) :
    Event.isRefInsert ev = false := by
  cases ev <;> simp_all [Event.isCommitInsert, Event.isRefInsert]

theorem isRefInsert_isTxBegin {ev : Event} (h : Event.isRefInsert ev = true) :
    Event.isTxBegin ev = false := by
  cases ev <;> simp_all [Event.isRefInsert, Event.isTxBegin]

theorem isRefInsert_isInsert {ev : Event} (h : Event.isRefInsert ev = true) :
    Event.isInsert ev = true := by
  cases ev <;> simp_all [Event.isRefInsert, Event.isInsert]

theorem isRefInsert_isCommitInsert {ev : Event} (h : Event.isRefInsert ev = true) :
    Event.isCommitInsert ev = false := by
  cases ev <;> simp_all [Event.isRefInsert, Event.isCommitInsert]

theorem db_tablesExist_true {db : Db} (h1 : ¬db.tablesExist = false) :
    db.tablesExist = true := by
  cases hx : db.tablesExist
  · exact absurd hx h1
  · rfl

theorem insertCommitDetailsRow_ok {db : Db} {c : CommitDetails} {db1 : Db}
    (h : insertCommitDetailsRow db c = Except.ok db1) :
    db1 = { db with commit_details := db.commit_details ++ [rowOf c] } := by
  rw [insertCommitDetailsRow] at h
  by_cases h1 : db.tablesExist = false
  · simp [h1] at h
  · by_cases h2 : db.commit_details.any (fun row => row.1 == c.id) = true
    · simp [h1, h2] at h
    · simp [h1, h2] at h
      rw [← h]
      simp [db_tablesExist_true h1]

theorem insertCommitRelationRow_ok {db : Db} {parent child : String} {db1 : Db}
    (h : insertCommitRelationRow db parent child = Except.ok db1) :
    db1 = { db with commit_relation := db.commit_relation ++ [(parent, child)] } := by
  rw [insertCommitRelationRow] at h
  by_cases h1 : db.tablesExist = false
  · simp [h1] at h
  · by_cases h2 : db.commit_relation.any (fun row => row.1 == parent && row.2 == child) = true
    · simp [h1, h2] at h
    · simp [h1, h2] at h
      rw [← h]
      simp [db_tablesExist_true h1]

theorem insertRefDetailsRow_ok {db : Db} {r : RefDetails} {db1 : Db}
    (h : insertRefDetailsRow db r = Except.ok db1) :
    db1 = { db with ref_details := db.ref_details ++ [refRowOf r] } := by
  rw [insertRefDetailsRow] at h
  by_cases h1 : db.tablesExist = false
  · simp [h1] at h
  · by_cases h2 : db.ref_details.any (fun row => row.1 == r.name && row.2.1 == r.id) = true
    · simp [h1, h2] at h
    · simp [h1, h2] at h
      rw [← h]
      simp [db_tablesExist_true h1]

theorem insertRelationsLoop_cons_err {db : Db} {p child : String} {rest : List String}
    {e : String} (hrow : insertCommitRelationRow db p child = Except.error e) :
    insertRelationsLoop db child (p :: rest) =
      ([Event.insertRelation p child], Except.error e) := by
  rw [insertRelationsLoop, hrow]

theorem insertRelationsLoop_cons_ok {db dbx : Db} {p child : String} {rest : List String}
    (hrow : insertCommitRelationRow db p child = Except.ok dbx) :
    insertRelationsLoop db child (p :: rest) =
      (Event.insertRelation p child :: (insertRelationsLoop dbx child rest).1,
       (insertRelationsLoop dbx child rest).2) := by
  rw [insertRelationsLoop, hrow]

theorem commitTxBody_eq_err {db : Db} {c : CommitDetails} {e : String}
    (hrow : insertCommitDetailsRow db c = Except.error e) :
    commitTxBody db c = ([Event.insertDetails c.id], Except.error e) := by
  rw [commitTxBody, hrow]

theorem commitTxBody_eq_ok {db dbx : Db} {c : CommitDetails}
    (hrow : insertCommitDetailsRow db c = Except.ok dbx) :
    commitTxBody db c =
      (Event.insertDetails c.id :: (insertRelationsLoop dbx c.id c.parents).1,
       (insertRelationsLoop dbx c.id c.parents).2) := by
  rw [commitTxBody, hrow]

theorem insertRelationsLoop_ok (child : String) (ps : List String) : ∀ db db1 : Db,
    (insertRelationsLoop db child ps).2 = Except.ok db1 →
    db1 = { db with commit_relation :=
              db.commit_relation ++ ps.map (fun p => (p, child)) } := by
  induction ps with
  | nil =>
    intro db db1 h
    simp only [insertRelationsLoop] at h
    injection h with h
    simp [← h]
  | cons p rest ih =>
    intro db db1 h
    cases hrow : insertCommitRelationRow db p child with
    | error e => rw [insertRelationsLoop_cons_err hrow] at h; simp at h
    | ok dbx =>
      rw [insertRelationsLoop_cons_ok hrow] at h
      have hx := insertCommitRelationRow_ok hrow
      have := ih dbx db1 h
      subst hx
      simp [this, List.append_assoc]

theorem insertRelationsLoop_events (child : String) (ps : List String) : ∀ db : Db,
    ∀ ev ∈ (insertRelationsLoop db child ps).1, Event.isCommitInsert ev = true := by
  induction ps with
  | nil => intro db ev hev; simp [insertRelationsLoop] at hev
  | cons p rest ih =>
    intro db ev hev
    cases hrow : insertCommitRelationRow db p child with
    | error e =>
      rw [insertRelationsLoop_cons_err hrow] at hev
      simp at hev
      simp [hev, Event.isCommitInsert]
    | ok dbx =>
      rw [insertRelationsLoop_cons_ok hrow] at hev
      simp only [List.mem_cons] at hev
      rcases hev with hev | hev
      · simp [hev, Event.isCommitInsert]
      · exact ih dbx ev hev

theorem commitTxBody_ok {db : Db} {c : CommitDetails} {db1 : Db}
    (h : (commitTxBody db c).2 = Except.ok db1) :
    db1 = okApplyCommit db c := by
  cases hrow : insertCommitDetailsRow db c with
  | error e => rw [commitTxBody_eq_err hrow] at h; simp at h
  | ok dbx =>
    rw [commitTxBody_eq_ok hrow] at h
    have hx := insertCommitDetailsRow_ok hrow
    have := insertRelationsLoop_ok c.id c.parents dbx db1 h
    subst hx
    simp [this, okApplyCommit, edgesOf]

theorem commitTxBody_events (db : Db) (c : CommitDetails) :
    ∀ ev ∈ (commitTxBody db c).1, Event.isCommitInsert ev = true := by
  intro ev hev
  cases hrow : insertCommitDetailsRow db c with
  | error e =>
    rw [commitTxBody_eq_err hrow] at hev
    simp at hev
    simp [hev, Event.isCommitInsert]
  | ok dbx =>
    rw [commitTxBody_eq_ok hrow] at hev
    simp only [List.mem_cons] at hev
    rcases hev with hev | hev
    · simp [hev, Event.isCommitInsert]
    · exact insertRelationsLoop_events c.id c.parents dbx ev hev

theorem commitTxBody_no_txBegin (db : Db) (c : CommitDetails) :
    (commitTxBody db c).1.countP Event.isTxBegin = 0 := by
  rw [List.countP_eq_zero]
  intro ev hev
  simp [isCommitInsert_isTxBegin (commitTxBody_events db c ev hev)]

theorem batch_insert_commits_cons_err {db : Db} {c : CommitDetails}
    {rest : List CommitDetails} {evs : List Event} {e : String}
    (hb : commitTxBody db c = (evs, Except.error e)) :
    batch_insert_commits db (c :: rest) =
      (db, Event.txBegin :: evs ++ [Event.txRollback], some e) := by
  rw [batch_insert_commits, hb]

theorem batch_insert_commits_cons_ok {db db1 : Db} {c : CommitDetails}
    {rest : List CommitDetails} {evs : List Event}
    (hb : commitTxBody db c = (evs, Except.ok db1)) :
    batch_insert_commits db (c :: rest) =
      ((batch_insert_commits db1 rest).1,
       Event.txBegin :: evs ++ [Event.txCommit] ++ (batch_insert_commits db1 rest).2.1,
       (batch_insert_commits db1 rest).2.2) := by
  rw [batch_insert_commits, hb]

/-- Structure of a batch_insert_commits run: the records split into a
    prefix whose transactions all committed (their rows are all visible)
    and, exactly when an error is reported, a first failing record whose
    transaction left no rows behind; one transaction is begun per record
    attempted. -/
theorem batch_insert_commits_split (l : List CommitDetails) : ∀ db : Db,
    ∃ l1 l2, l = l1 ++ l2 ∧
      (batch_insert_commits db l).1 = applyAllCommits db l1 ∧
      ((batch_insert_commits db l).2.2 = none → l2 = []) ∧
      (∀ e, (batch_insert_commits db l).2.2 = some e →
        ∃ c cs, l2 = c :: cs ∧
          (commitTxBody (applyAllCommits db l1) c).2 = Except.error e) ∧
      (batch_insert_commits db l).2.1.countP Event.isTxBegin =
        l1.length + (if (batch_insert_commits db l).2.2 = none then 0 else 1) := by
  induction l with
  | nil =>
    intro db
    refine ⟨[], [], rfl, rfl, fun _ => rfl, ?_, ?_⟩
    · intro e he
      simp [batch_insert_commits] at he
    · simp [batch_insert_commits]
  | cons c rest ih =>
    intro db
    rcases hb : commitTxBody db c with ⟨evs, res⟩
    cases res with
    | error e =>
      refine ⟨[], c :: rest, rfl, ?_, ?_, ?_, ?_⟩
      · rw [batch_insert_commits_cons_err hb]
        rfl
      · rw [batch_insert_commits_cons_err hb]
        intro h
        simp at h
      · intro e' he'
        rw [batch_insert_commits_cons_err hb] at he'
        simp at he'
        refine ⟨c, rest, rfl, ?_⟩
        show (commitTxBody db c).2 = Except.error e'
        rw [hb, ← he']
      · rw [batch_insert_commits_cons_err hb]
        have h0 := commitTxBody_no_txBegin db c
        rw [hb] at h0
        simp [List.countP_cons, List.countP_append, h0, Event.isTxBegin]
    | ok db1 =>
      obtain ⟨l1, l2, heq, hstate, hnone, hsome, hcount⟩ := ih db1
      have hdb1 : db1 = okApplyCommit db c := commitTxBody_ok (by rw [hb])
      refine ⟨c :: l1, l2, by rw [heq]; rfl, ?_, ?_, ?_, ?_⟩
      · rw [batch_insert_commits_cons_ok hb, applyAllCommits_cons, ← hdb1]
        exact hstate
      · rw [batch_insert_commits_cons_ok hb]
        exact hnone
      · intro e' he'
        rw [batch_insert_commits_cons_ok hb] at he'
        obtain ⟨cx, cs, hl2, herr⟩ := hsome e' he'
        refine ⟨cx, cs, hl2, ?_⟩
        rw [applyAllCommits_cons, ← hdb1]
        exact herr
      · rw [batch_insert_commits_cons_ok hb]
        have h0 := commitTxBody_no_txBegin db c
        rw [hb] at h0
        simp only [List.countP_cons, List.countP_append, h0, List.length_cons]
        simp [Event.isTxBegin, hcount]
        omega

/-- batch_insert_commits over an appended record list runs the first part
    and, when it succeeds, continues with the second from the reached
    state; chunk boundaries are invisible to the per-record transactions. -/
theorem batch_insert_commits_append (l1 : List CommitDetails) :
    ∀ (db : Db) (l2 : List CommitDetails),
    batch_insert_commits db (l1 ++ l2) =
      match batch_insert_commits db l1 with
      | (db1, evs1, some e) => (db1, evs1, some e)
      | (db1, evs1, none) =>
        ((batch_insert_commits db1 l2).1,
         evs1 ++ (batch_insert_commits db1 l2).2.1,
         (batch_insert_commits db1 l2).2.2) := by
  induction l1 with
  | nil =>
    intro db l2
    simp [batch_insert_commits]
  | cons c rest ih =>
    intro db l2
    rcases hb : commitTxBody db c with ⟨evs, res⟩
    cases res with
    | error e =>
      rw [List.cons_append, batch_insert_commits_cons_err hb,
          batch_insert_commits_cons_err hb]
    | ok db1 =>
      rw [List.cons_append, batch_insert_commits_cons_ok hb,
          batch_insert_commits_cons_ok hb, ih db1 l2]
      rcases hrest : batch_insert_commits db1 rest with ⟨db2, evs2, r2⟩
      cases r2 with
      | some e => rfl
      | none => simp

theorem collectChunk_cons_ok (repo : Repository) (oid : String)
    (rest : List (Except String String)) :
    collectChunk repo (Except.ok oid :: rest) =
      (extract_commit_details (repo.find_commit oid) :: (collectChunk repo rest).1,
       (collectChunk repo rest).2) := by
  rw [collectChunk]

theorem collectChunk_cons_err (repo : Repository) (e : String)
    (rest : List (Except String String)) :
    collectChunk repo (Except.error e :: rest) =
      ((collectChunk repo rest).1,
       Event.printLine ("Failed to process commit: " ++ e) :: (collectChunk repo rest).2) := by
  rw [collectChunk]

theorem collectChunk_append (repo : Repository) (a : List (Except String String)) :
    ∀ b : List (Except String String),
    collectChunk repo (a ++ b) =
      ((collectChunk repo a).1 ++ (collectChunk repo b).1,
       (collectChunk repo a).2 ++ (collectChunk repo b).2) := by
  induction a with
  | nil => intro b; simp [collectChunk]
  | cons x rest ih =>
    intro b
    cases x with
    | ok oid =>
      rw [List.cons_append, collectChunk_cons_ok, collectChunk_cons_ok, ih b]
      simp
    | error e =>
      rw [List.cons_append, collectChunk_cons_err, collectChunk_cons_err, ih b]
      simp

theorem collectChunk_flatten (repo : Repository)
    (cs : List (List (Except String String))) :
    (cs.map (fun ch => (collectChunk repo ch).1)).flatten =
      (collectChunk repo cs.flatten).1 := by
  induction cs with
  | nil => simp [collectChunk]
  | cons ch rest ih =>
    simp only [List.map_cons, List.flatten_cons, collectChunk_append, ih]

theorem collectChunk_events (repo : Repository) (chunk : List (Except String String)) :
    ∀ ev ∈ (collectChunk repo chunk).2, Event.isPrint ev = true := by
  induction chunk with
  | nil => intro ev hev; simp [collectChunk] at hev
  | cons x rest ih =>
    intro ev hev
    cases x with
    | ok oid =>
      rw [collectChunk_cons_ok] at hev
      exact ih ev hev
    | error e =>
      rw [collectChunk_cons_err] at hev
      rcases List.mem_cons.mp hev with hev | hev
      · simp [hev, Event.isPrint]
      · exact ih ev hev

theorem commitChunksLoop_stErr (repo : Repository)
    (chunks : List (List (Except String String))) : ∀ db : Db,
    stErr (commitChunksLoop repo db chunks) =
      stErr (batch_insert_commits db
        ((chunks.map (fun ch => (collectChunk repo ch).1)).flatten)) := by
  induction chunks with
  | nil => intro db; rfl
  | cons chunk rest ih =>
    intro db
    rcases hc : collectChunk repo chunk with ⟨cs, pevs⟩
    rw [commitChunksLoop, hc]
    simp only [List.map_cons, List.flatten_cons]
    rw [batch_insert_commits_append]
    rcases hbatch : batch_insert_commits db cs with ⟨db1, ievs, r1⟩
    have hcs : (collectChunk repo chunk).1 = cs := by rw [hc]
    rw [hcs, hbatch]
    cases r1 with
    | some e => rfl
    | none =>
      have := ih db1
      rcases hrest : commitChunksLoop repo db1 rest with ⟨db2, evs2, r2⟩
      rw [hrest] at this
      simp only [stErr] at this ⊢
      rw [hrest]
      exact this

/-- The commit sub-pipeline is, at the level of final state and reported
    error, the per-record transaction run over the flat record sequence:
    the chunking by 50 only groups work. -/
theorem get_commits_flat (db : Db) (repo : Repository) :
    stErr (get_commits_detail_array db repo) =
      stErr (batch_insert_commits db (commitRecords repo)) := by
  rw [get_commits_detail_array, commitChunksLoop_stErr, commitRecords, collectChunk_flatten,
      chunksOf_flatten 50 (by omega)]

theorem refsTxBody_cons_err {db : Db} {r : RefDetails} {rest : List RefDetails}
    {e : String} (hrow : insertRefDetailsRow db r = Except.error e) :
    refsTxBody db (r :: rest) = ([Event.insertRef r.name r.id], Except.error e) := by
  rw [refsTxBody, hrow]

theorem refsTxBody_cons_ok {db dbx : Db} {r : RefDetails} {rest : List RefDetails}
    (hrow : insertRefDetailsRow db r = Except.ok dbx) :
    refsTxBody db (r :: rest) =
      (Event.insertRef r.name r.id :: (refsTxBody dbx rest).1,
       (refsTxBody dbx rest).2) := by
  rw [refsTxBody, hrow]

theorem refsTxBody_ok (chunk : List RefDetails) : ∀ db db1 : Db,
    (refsTxBody db chunk).2 = Except.ok db1 →
    db1 = { db with ref_details := db.ref_details ++ chunk.map refRowOf } := by
  induction chunk with
  | nil =>
    intro db db1 h
    simp only [refsTxBody] at h
    injection h with h
    simp [← h]
  | cons r rest ih =>
    intro db db1 h
    cases hrow : insertRefDetailsRow db r with
    | error e => rw [refsTxBody_cons_err hrow] at h; simp at h
    | ok dbx =>
      rw [refsTxBody_cons_ok hrow] at h
      have hx := insertRefDetailsRow_ok hrow
      have := ih dbx db1 h
      subst hx
      simp [this, List.append_assoc]

theorem refsTxBody_events (chunk : List RefDetails) : ∀ db : Db,
    ∀ ev ∈ (refsTxBody db chunk).1, Event.isRefInsert ev = true := by
  induction chunk with
  | nil => intro db ev hev; simp [refsTxBody] at hev
  | cons r rest ih =>
    intro db ev hev
    cases hrow : insertRefDetailsRow db r with
    | error e =>
      rw [refsTxBody_cons_err hrow] at hev
      simp at hev
      simp [hev, Event.isRefInsert]
    | ok dbx =>
      rw [refsTxBody_cons_ok hrow] at hev
      rcases List.mem_cons.mp hev with hev | hev
      · simp [hev, Event.isRefInsert]
      · exact ih dbx ev hev

theorem refTxChunksLoop_cons_err {db : Db} {chunk : List RefDetails}
    {rest : List (List RefDetails)} {evs : List Event} {e : String}
    (hb : refsTxBody db chunk = (evs, Except.error e)) :
    refTxChunksLoop db (chunk :: rest) =
      (db, Event.txBegin :: evs ++ [Event.txRollback], some e) := by
  rw [refTxChunksLoop, hb]

theorem refTxChunksLoop_cons_ok {db db1 : Db} {chunk : List RefDetails}
    {rest : List (List RefDetails)} {evs : List Event}
    (hb : refsTxBody db chunk = (evs, Except.ok db1)) :
    refTxChunksLoop db (chunk :: rest) =
      ((refTxChunksLoop db1 rest).1,
       Event.txBegin :: evs ++ [Event.txCommit] ++ (refTxChunksLoop db1 rest).2.1,
       (refTxChunksLoop db1 rest).2.2) := by
  rw [refTxChunksLoop, hb]

theorem refTxChunksLoop_none (chunks : List (List RefDetails)) : ∀ db : Db,
    (refTxChunksLoop db chunks).2.2 = none →
    (refTxChunksLoop db chunks).1 =
      { db with ref_details := db.ref_details ++ chunks.flatten.map refRowOf } := by
  induction chunks with
  | nil =>
    intro db _
    simp [refTxChunksLoop]
  | cons chunk rest ih =>
    intro db h
    rcases hb : refsTxBody db chunk with ⟨evs, res⟩
    cases res with
    | error e =>
      rw [refTxChunksLoop_cons_err hb] at h
      simp at h
    | ok db1 =>
      rw [refTxChunksLoop_cons_ok hb] at h ⊢
      have hdb1 : db1 = { db with ref_details := db.ref_details ++ chunk.map refRowOf } :=
        refsTxBody_ok chunk db db1 (by rw [hb])
      rw [ih db1 h, hdb1]
      simp [List.flatten_cons, List.map_append, List.append_assoc]

/-- In every outcome a refs transaction loop leaves the commit tables and
    the schema flag unchanged. -/
theorem refTxChunksLoop_preserves (chunks : List (List RefDetails)) : ∀ db : Db,
    (refTxChunksLoop db chunks).1.commit_details = db.commit_details ∧
    (refTxChunksLoop db chunks).1.commit_relation = db.commit_relation ∧
    (refTxChunksLoop db chunks).1.tablesExist = db.tablesExist := by
  induction chunks with
  | nil => intro db; exact ⟨rfl, rfl, rfl⟩
  | cons chunk rest ih =>
    intro db
    rcases hb : refsTxBody db chunk with ⟨evs, res⟩
    cases res with
    | error e =>
      rw [refTxChunksLoop_cons_err hb]
      exact ⟨rfl, rfl, rfl⟩
    | ok db1 =>
      rw [refTxChunksLoop_cons_ok hb]
      have hdb1 : db1 = { db with ref_details := db.ref_details ++ chunk.map refRowOf } :=
        refsTxBody_ok chunk db db1 (by rw [hb])
      obtain ⟨h1, h2, h3⟩ := ih db1
      refine ⟨?_, ?_, ?_⟩
      · show (refTxChunksLoop db1 rest).1.commit_details = db.commit_details
        rw [h1, hdb1]
      · show (refTxChunksLoop db1 rest).1.commit_relation = db.commit_relation
        rw [h2, hdb1]
      · show (refTxChunksLoop db1 rest).1.tablesExist = db.tablesExist
        rw [h3, hdb1]

theorem batch_insert_refs_none {db : Db} {refs : List RefDetails}
    (h : (batch_insert_refs db refs).2.2 = none) :
    (batch_insert_refs db refs).1 =
      { db with ref_details := db.ref_details ++ refs.map refRowOf } := by
  rw [batch_insert_refs] at h ⊢
  rw [refTxChunksLoop_none _ db h, chunksOf_flatten 50 (by omega)]

theorem batch_insert_refs_preserves (db : Db) (refs : List RefDetails) :
    (batch_insert_refs db refs).1.commit_details = db.commit_details ∧
    (batch_insert_refs db refs).1.commit_relation = db.commit_relation ∧
    (batch_insert_refs db refs).1.tablesExist = db.tablesExist :=
  refTxChunksLoop_preserves (chunksOf 50 refs) db

theorem collectRefChunk_cons_ok (reference : RawReference)
    (rest : List (Except String RawReference)) :
    collectRefChunk (Except.ok reference :: rest) =
      (extract_ref_details reference :: (collectRefChunk rest).1,
       (collectRefChunk rest).2) := by
  rw [collectRefChunk]

theorem collectRefChunk_cons_err (e : String) (rest : List (Except String RawReference)) :
    collectRefChunk (Except.error e :: rest) =
      ((collectRefChunk rest).1,
       Event.printLine ("Failed to process reference: " ++ e) :: (collectRefChunk rest).2) := by
  rw [collectRefChunk]

theorem collectRefChunk_append (a : List (Except String RawReference)) :
    ∀ b : List (Except String RawReference),
    collectRefChunk (a ++ b) =
      ((collectRefChunk a).1 ++ (collectRefChunk b).1,
       (collectRefChunk a).2 ++ (collectRefChunk b).2) := by
  induction a with
  | nil => intro b; simp [collectRefChunk]
  | cons x rest ih =>
    intro b
    cases x with
    | ok reference =>
      rw [List.cons_append, collectRefChunk_cons_ok, collectRefChunk_cons_ok, ih b]
      simp
    | error e =>
      rw [List.cons_append, collectRefChunk_cons_err, collectRefChunk_cons_err, ih b]
      simp

theorem collectRefChunk_flatten (cs : List (List (Except String RawReference))) :
    (cs.map (fun ch => (collectRefChunk ch).1)).flatten =
      (collectRefChunk cs.flatten).1 := by
  induction cs with
  | nil => simp [collectRefChunk]
  | cons ch rest ih =>
    simp only [List.map_cons, List.flatten_cons, collectRefChunk_append, ih]

theorem collectRefChunk_events (chunk : List (Except String RawReference)) :
    ∀ ev ∈ (collectRefChunk chunk).2, Event.isPrint ev = true := by
  induction chunk with
  | nil => intro ev hev; simp [collectRefChunk] at hev
  | cons x rest ih =>
    intro ev hev
    cases x with
    | ok reference =>
      rw [collectRefChunk_cons_ok] at hev
      exact ih ev hev
    | error e =>
      rw [collectRefChunk_cons_err] at hev
      rcases List.mem_cons.mp hev with hev | hev
      · simp [hev, Event.isPrint]
      · exact ih ev hev

theorem refChunksLoop_cons (db : Db) (chunk : List (Except String RawReference))
    (rest : List (List (Except String RawReference))) {rs : List RefDetails}
    {pevs : List Event} (hc : collectRefChunk chunk = (rs, pevs)) :
    refChunksLoop db (chunk :: rest) =
      match batch_insert_refs db rs with
      | (db1, ievs, some e) => (db1, pevs ++ ievs, some e)
      | (db1, ievs, none) =>
        ((refChunksLoop db1 rest).1,
         pevs ++ ievs ++ (refChunksLoop db1 rest).2.1,
         (refChunksLoop db1 rest).2.2) := by
  rw [refChunksLoop, hc]

/-- In every outcome the reference sub-pipeline leaves the commit tables
    and the schema flag unchanged. -/
theorem refChunksLoop_preserves (chunks : List (List (Except String RawReference))) :
    ∀ db : Db,
    (refChunksLoop db chunks).1.commit_details = db.commit_details ∧
    (refChunksLoop db chunks).1.commit_relation = db.commit_relation ∧
    (refChunksLoop db chunks).1.tablesExist = db.tablesExist := by
  induction chunks with
  | nil => intro db; exact ⟨rfl, rfl, rfl⟩
  | cons chunk rest ih =>
    intro db
    rcases hc : collectRefChunk chunk with ⟨rs, pevs⟩
    rw [refChunksLoop_cons db chunk rest hc]
    rcases hb : batch_insert_refs db rs with ⟨db1, ievs, r⟩
    have hpres := batch_insert_refs_preserves db rs
    rw [hb] at hpres
    cases r with
    | some e => exact hpres
    | none =>
      obtain ⟨h1, h2, h3⟩ := ih db1
      exact ⟨h1.trans hpres.1, h2.trans hpres.2.1, h3.trans hpres.2.2⟩

/-- A successful reference sub-pipeline appends exactly the collected
    reference rows, in order. -/
theorem refChunksLoop_none (chunks : List (List (Except String RawReference))) :
    ∀ db : Db, (refChunksLoop db chunks).2.2 = none →
    (refChunksLoop db chunks).1 =
      { db with ref_details := db.ref_details ++
          ((chunks.map (fun ch => (collectRefChunk ch).1)).flatten).map refRowOf } := by
  induction chunks with
  | nil =>
    intro db _
    simp [refChunksLoop]
  | cons chunk rest ih =>
    intro db h
    rcases hc : collectRefChunk chunk with ⟨rs, pevs⟩
    rw [refChunksLoop_cons db chunk rest hc] at h ⊢
    rcases hb : batch_insert_refs db rs with ⟨db1, ievs, r⟩
    rw [hb] at h
    cases r with
    | some e => exact Option.noConfusion h
    | none =>
      have h2 : (refChunksLoop db1 rest).2.2 = none := h
      have hdb1 : db1 = { db with ref_details := db.ref_details ++ rs.map refRowOf } := by
        have h3 := @batch_insert_refs_none db rs (by rw [hb])
        rw [hb] at h3
        exact h3
      show (refChunksLoop db1 rest).1 = _
      rw [ih db1 h2, hdb1]
      simp [List.map_cons, List.flatten_cons, hc, List.map_append, List.append_assoc]

/-- When the first collected reference record of the remaining chunks
    collides on its primary key, the reference sub-pipeline fails with
    that error and leaves the store unchanged. -/
theorem refChunksLoop_first_conflict (chunks : List (List (Except String RawReference))) :
    ∀ (db : Db) (r1 : RefDetails) (rest : List RefDetails) (e : String),
    ((chunks.map (fun ch => (collectRefChunk ch).1)).flatten) = r1 :: rest →
    insertRefDetailsRow db r1 = Except.error e →
    (refChunksLoop db chunks).1 = db ∧ (refChunksLoop db chunks).2.2 = some e := by
  induction chunks with
  | nil =>
    intro db r1 rest e hflat _
    simp at hflat
  | cons chunk chs ih =>
    intro db r1 rest e hflat hins
    rcases hc : collectRefChunk chunk with ⟨rs, pevs⟩
    rw [refChunksLoop_cons db chunk chs hc]
    rw [List.map_cons, List.flatten_cons, hc] at hflat
    cases hrs : rs with
    | nil =>
      subst hrs
      simp only [List.nil_append] at hflat
      have hb : batch_insert_refs db [] = (db, [], none) := rfl
      rw [hb]
      exact ih db r1 rest e hflat hins
    | cons r0 more =>
      subst hrs
      have hr0 : r0 = r1 := by
        have := congrArg (fun l => l.head?) hflat
        simpa using this
      subst hr0
      have htake : (r0 :: more).take 50 = r0 :: more.take 49 := rfl
      have hchunks : chunksOf 50 (r0 :: more) =
          ((r0 :: more).take 50) :: chunksOfFuel 50 more.length ((r0 :: more).drop 50) := rfl
      have hbody : refsTxBody db (r0 :: more.take 49) =
          ([Event.insertRef r0.name r0.id], Except.error e) :=
        refsTxBody_cons_err hins
      have hb : batch_insert_refs db (r0 :: more) =
          (db, Event.txBegin :: [Event.insertRef r0.name r0.id] ++ [Event.txRollback],
           some e) := by
        rw [batch_insert_refs, hchunks, htake]
        exact refTxChunksLoop_cons_err hbody
      rw [hb]
      exact ⟨rfl, rfl⟩

/-- The reference sub-pipeline at the level of final state: success
    appends exactly the reference rows of the flat record sequence. -/
theorem get_ref_details_none {db : Db} {repo : Repository}
    (h : (get_ref_details db repo).2.2 = none) :
    (get_ref_details db repo).1 =
      { db with ref_details := db.ref_details ++ (refRecords repo).map refRowOf } := by
  rw [get_ref_details] at h ⊢
  rw [refChunksLoop_none _ db h, collectRefChunk_flatten, refRecords,
      chunksOf_flatten 50 (by omega)]

theorem get_ref_details_preserves (db : Db) (repo : Repository) :
    (get_ref_details db repo).1.commit_details = db.commit_details ∧
    (get_ref_details db repo).1.commit_relation = db.commit_relation ∧
    (get_ref_details db repo).1.tablesExist = db.tablesExist :=
  refChunksLoop_preserves (chunksOf 50 repo.references) db

theorem runTxState_append (t1 : List Event) : ∀ (b : Bool) (t2 : List Event),
    runTxState b (t1 ++ t2) =
      match runTxState b t1 with
      | none => none
      | some b1 => runTxState b1 t2 := by
  induction t1 with
  | nil => intro b t2; rfl
  | cons ev rest ih =>
    intro b t2
    cases ev <;> cases b <;> simp [runTxState, ih]

theorem runTxState_of_inserts (l : List Event)
    (h : ∀ ev ∈ l, Event.isInsert ev = true) : runTxState true l = some true := by
  induction l with
  | nil => rfl
  | cons ev rest ih =>
    have hev := h ev (List.mem_cons_self ev rest)
    have hrest : ∀ ev2 ∈ rest, Event.isInsert ev2 = true :=
      fun ev2 h2 => h ev2 (List.mem_cons_of_mem ev h2)
    cases ev <;> simp [Event.isInsert] at hev <;> simp [runTxState, ih hrest]

theorem runTxState_of_prints (l : List Event)
    (h : ∀ ev ∈ l, Event.isPrint ev = true) : ∀ b : Bool, runTxState b l = some b := by
  induction l with
  | nil => intro b; rfl
  | cons ev rest ih =>
    intro b
    have hev := h ev (List.mem_cons_self ev rest)
    have hrest : ∀ ev2 ∈ rest, Event.isPrint ev2 = true :=
      fun ev2 h2 => h ev2 (List.mem_cons_of_mem ev h2)
    cases ev <;> simp [Event.isPrint] at hev <;> simp [runTxState, ih hrest]

theorem batch_insert_commits_balanced (l : List CommitDetails) : ∀ db : Db,
    runTxState false (batch_insert_commits db l).2.1 = some false := by
  induction l with
  | nil => intro db; rfl
  | cons c rest ih =>
    intro db
    rcases hb : commitTxBody db c with ⟨evs, res⟩
    have hevs : ∀ ev ∈ evs, Event.isInsert ev = true := by
      intro ev hev
      have := commitTxBody_events db c ev (by rw [hb]; exact hev)
      exact isCommitInsert_isInsert this
    cases res with
    | error e =>
      rw [batch_insert_commits_cons_err hb]
      show runTxState false (Event.txBegin :: (evs ++ [Event.txRollback])) = some false
      rw [runTxState]
      simp only [if_false, Bool.false_eq_true, ite_false]
      rw [runTxState_append, runTxState_of_inserts evs hevs]
      rfl
    | ok db1 =>
      rw [batch_insert_commits_cons_ok hb]
      show runTxState false
        (Event.txBegin :: (evs ++ [Event.txCommit] ++ (batch_insert_commits db1 rest).2.1)) =
        some false
      rw [runTxState]
      simp only [if_false, Bool.false_eq_true, ite_false]
      rw [List.append_assoc, runTxState_append, runTxState_of_inserts evs hevs]
      show runTxState true (Event.txCommit :: (batch_insert_commits db1 rest).2.1) = some false
      rw [runTxState]
      simp [ih db1]

theorem refTxChunksLoop_balanced (chunks : List (List RefDetails)) : ∀ db : Db,
    runTxState false (refTxChunksLoop db chunks).2.1 = some false := by
  induction chunks with
  | nil => intro db; rfl
  | cons chunk rest ih =>
    intro db
    rcases hb : refsTxBody db chunk with ⟨evs, res⟩
    have hevs : ∀ ev ∈ evs, Event.isInsert ev = true := by
      intro ev hev
      have := refsTxBody_events chunk db ev (by rw [hb]; exact hev)
      exact isRefInsert_isInsert this
    cases res with
    | error e =>
      rw [refTxChunksLoop_cons_err hb]
      show runTxState false (Event.txBegin :: (evs ++ [Event.txRollback])) = some false
      rw [runTxState]
      simp only [if_false, Bool.false_eq_true, ite_false]
      rw [runTxState_append, runTxState_of_inserts evs hevs]
      rfl
    | ok db1 =>
      rw [refTxChunksLoop_cons_ok hb]
      show runTxState false
        (Event.txBegin :: (evs ++ [Event.txCommit] ++ (refTxChunksLoop db1 rest).2.1)) =
        some false
      rw [runTxState]
      simp only [if_false, Bool.false_eq_true, ite_false]
      rw [List.append_assoc, runTxState_append, runTxState_of_inserts evs hevs]
      show runTxState true (Event.txCommit :: (refTxChunksLoop db1 rest).2.1) = some false
      rw [runTxState]
      simp [ih db1]

theorem commitChunksLoop_cons (repo : Repository) (db : Db)
    (chunk : List (Except String String)) (rest : List (List (Except String String)))
    {cs : List CommitDetails} {pevs : List Event}
    (hc : collectChunk repo chunk = (cs, pevs)) :
    commitChunksLoop repo db (chunk :: rest) =
      match batch_insert_commits db cs with
      | (db1, ievs, some e) => (db1, pevs ++ ievs, some e)
      | (db1, ievs, none) =>
        ((commitChunksLoop repo db1 rest).1,
         pevs ++ ievs ++ (commitChunksLoop repo db1 rest).2.1,
         (commitChunksLoop repo db1 rest).2.2) := by
  rw [commitChunksLoop, hc]

theorem commitChunksLoop_balanced (chunks : List (List (Except String String)))
    (repo : Repository) : ∀ db : Db,
    runTxState false (commitChunksLoop repo db chunks).2.1 = some false := by
  induction chunks with
  | nil => intro db; rfl
  | cons chunk rest ih =>
    intro db
    rcases hc : collectChunk repo chunk with ⟨cs, pevs⟩
    have hp : runTxState false pevs = some false :=
      runTxState_of_prints pevs
        (fun ev hev => collectChunk_events repo chunk ev (by rw [hc]; exact hev)) false
    rw [commitChunksLoop_cons repo db chunk rest hc]
    rcases hbatch : batch_insert_commits db cs with ⟨db1, ievs, r1⟩
    have hbal := batch_insert_commits_balanced cs db
    rw [hbatch] at hbal
    have hbal2 : runTxState false ievs = some false := hbal
    cases r1 with
    | some e =>
      show runTxState false (pevs ++ ievs) = some false
      rw [runTxState_append, hp]
      exact hbal2
    | none =>
      show runTxState false (pevs ++ ievs ++ (commitChunksLoop repo db1 rest).2.1) =
        some false
      rw [List.append_assoc, runTxState_append, hp]
      show runTxState false (ievs ++ (commitChunksLoop repo db1 rest).2.1) = some false
      rw [runTxState_append, hbal2]
      exact ih db1

theorem refChunksLoop_balanced (chunks : List (List (Except String RawReference))) :
    ∀ db : Db, runTxState false (refChunksLoop db chunks).2.1 = some false := by
  induction chunks with
  | nil => intro db; rfl
  | cons chunk rest ih =>
    intro db
    rcases hc : collectRefChunk chunk with ⟨rs, pevs⟩
    have hp : runTxState false pevs = some false :=
      runTxState_of_prints pevs
        (fun ev hev => collectRefChunk_events chunk ev (by rw [hc]; exact hev)) false
    rw [refChunksLoop_cons db chunk rest hc]
    rcases hbatch : batch_insert_refs db rs with ⟨db1, ievs, r1⟩
    have hbal := refTxChunksLoop_balanced (chunksOf 50 rs) db
    rw [show refTxChunksLoop db (chunksOf 50 rs) = batch_insert_refs db rs from rfl,
        hbatch] at hbal
    have hbal2 : runTxState false ievs = some false := hbal
    cases r1 with
    | some e =>
      show runTxState false (pevs ++ ievs) = some false
      rw [runTxState_append, hp]
      exact hbal2
    | none =>
      show runTxState false (pevs ++ ievs ++ (refChunksLoop db1 rest).2.1) = some false
      rw [List.append_assoc, runTxState_append, hp]
      show runTxState false (ievs ++ (refChunksLoop db1 rest).2.1) = some false
      rw [runTxState_append, hbal2]
      exact ih db1

theorem isPrint_isRefInsert {ev : Event} (h : Event.isPrint ev = true) :
    Event.isRefInsert ev = false := by
  cases ev <;> simp_all [Event.isPrint, Event.isRefInsert]

theorem isPrint_isCommitInsert {ev : Event} (h : Event.isPrint ev = true) :
    Event.isCommitInsert ev = false := by
  cases ev <;> simp_all [Event.isPrint, Event.isCommitInsert]

theorem batch_insert_commits_events (l : List CommitDetails) : ∀ db : Db,
    ∀ ev ∈ (batch_insert_commits db l).2.1, Event.isRefInsert ev = false := by
  induction l with
  | nil => intro db ev hev; simp [batch_insert_commits] at hev
  | cons c rest ih =>
    intro db ev hev
    rcases hb : commitTxBody db c with ⟨evs, res⟩
    have hbody : ∀ ev2 ∈ evs, Event.isRefInsert ev2 = false := by
      intro ev2 h2
      exact isCommitInsert_isRefInsert (commitTxBody_events db c ev2 (by rw [hb]; exact h2))
    cases res with
    | error e =>
      rw [batch_insert_commits_cons_err hb] at hev
      rcases List.mem_cons.mp hev with hev | hev
      · simp [hev, Event.isRefInsert]
      · rcases List.mem_append.mp hev with hev | hev
        · exact hbody ev hev
        · simp at hev
          simp [hev, Event.isRefInsert]
    | ok db1 =>
      rw [batch_insert_commits_cons_ok hb] at hev
      rcases List.mem_cons.mp hev with hev | hev
      · simp [hev, Event.isRefInsert]
      · rcases List.mem_append.mp hev with hev | hev
        · rcases List.mem_append.mp hev with hev | hev
          · exact hbody ev hev
          · simp at hev
            simp [hev, Event.isRefInsert]
        · exact ih db1 ev hev

theorem commitChunksLoop_events (chunks : List (List (Except String String)))
    (repo : Repository) : ∀ db : Db,
    ∀ ev ∈ (commitChunksLoop repo db chunks).2.1, Event.isRefInsert ev = false := by
  induction chunks with
  | nil => intro db ev hev; simp [commitChunksLoop] at hev
  | cons chunk rest ih =>
    intro db ev hev
    rcases hc : collectChunk repo chunk with ⟨cs, pevs⟩
    have hpr : ∀ ev2 ∈ pevs, Event.isRefInsert ev2 = false := by
      intro ev2 h2
      exact isPrint_isRefInsert (collectChunk_events repo chunk ev2 (by rw [hc]; exact h2))
    rw [commitChunksLoop_cons repo db chunk rest hc] at hev
    rcases hbatch : batch_insert_commits db cs with ⟨db1, ievs, r1⟩
    have hbv : ∀ ev2 ∈ ievs, Event.isRefInsert ev2 = false := by
      intro ev2 h2
      have := batch_insert_commits_events cs db ev2
      rw [hbatch] at this
      exact this h2
    rw [hbatch] at hev
    cases r1 with
    | some e =>
      have hev2 : ev ∈ pevs ++ ievs := hev
      rcases List.mem_append.mp hev2 with hev3 | hev3
      · exact hpr ev hev3
      · exact hbv ev hev3
    | none =>
      have hev2 : ev ∈ pevs ++ ievs ++ (commitChunksLoop repo db1 rest).2.1 := hev
      rcases List.mem_append.mp hev2 with hev3 | hev3
      · rcases List.mem_append.mp hev3 with hev4 | hev4
        · exact hpr ev hev4
        · exact hbv ev hev4
      · exact ih db1 ev hev3

theorem refTxChunksLoop_events (chunks : List (List RefDetails)) : ∀ db : Db,
    ∀ ev ∈ (refTxChunksLoop db chunks).2.1, Event.isCommitInsert ev = false := by
  induction chunks with
  | nil => intro db ev hev; simp [refTxChunksLoop] at hev
  | cons chunk rest ih =>
    intro db ev hev
    rcases hb : refsTxBody db chunk with ⟨evs, res⟩
    have hbody : ∀ ev2 ∈ evs, Event.isCommitInsert ev2 = false := by
      intro ev2 h2
      exact isRefInsert_isCommitInsert (refsTxBody_events chunk db ev2 (by rw [hb]; exact h2))
    cases res with
    | error e =>
      rw [refTxChunksLoop_cons_err hb] at hev
      rcases List.mem_cons.mp hev with hev | hev
      · simp [hev, Event.isCommitInsert]
      · rcases List.mem_append.mp hev with hev | hev
        · exact hbody ev hev
        · simp at hev
          simp [hev, Event.isCommitInsert]
    | ok db1 =>
      rw [refTxChunksLoop_cons_ok hb] at hev
      rcases List.mem_cons.mp hev with hev | hev
      · simp [hev, Event.isCommitInsert]
      · rcases List.mem_append.mp hev with hev | hev
        · rcases List.mem_append.mp hev with hev | hev
          · exact hbody ev hev
          · simp at hev
            simp [hev, Event.isCommitInsert]
        · exact ih db1 ev hev

theorem refChunksLoop_events (chunks : List (List (Except String RawReference))) :
    ∀ db : Db,
    ∀ ev ∈ (refChunksLoop db chunks).2.1, Event.isCommitInsert ev = false := by
  induction chunks with
  | nil => intro db ev hev; simp [refChunksLoop] at hev
  | cons chunk rest ih =>
    intro db ev hev
    rcases hc : collectRefChunk chunk with ⟨rs, pevs⟩
    have hpr : ∀ ev2 ∈ pevs, Event.isCommitInsert ev2 = false := by
      intro ev2 h2
      exact isPrint_isCommitInsert (collectRefChunk_events chunk ev2 (by rw [hc]; exact h2))
    rw [refChunksLoop_cons db chunk rest hc] at hev
    rcases hbatch : batch_insert_refs db rs with ⟨db1, ievs, r1⟩
    have hbv : ∀ ev2 ∈ ievs, Event.isCommitInsert ev2 = false := by
      intro ev2 h2
      have := refTxChunksLoop_events (chunksOf 50 rs) db ev2
      rw [show refTxChunksLoop db (chunksOf 50 rs) = batch_insert_refs db rs from rfl,
          hbatch] at this
      exact this h2
    rw [hbatch] at hev
    cases r1 with
    | some e =>
      have hev2 : ev ∈ pevs ++ ievs := hev
      rcases List.mem_append.mp hev2 with hev3 | hev3
      · exact hpr ev hev3
      · exact hbv ev hev3
    | none =>
      have hev2 : ev ∈ pevs ++ ievs ++ (refChunksLoop db1 rest).2.1 := hev
      rcases List.mem_append.mp hev2 with hev3 | hev3
      · rcases List.mem_append.mp hev3 with hev4 | hev4
        · exact hpr ev hev4
        · exact hbv ev hev4
      · exact ih db1 ev hev3

/-! ### Pipeline-level case lemmas -/

theorem runPipeline_err {db : Db} {repo : Repository} {e : String}
    (h : (get_commits_detail_array db repo).2.2 = some e) :
    runPipeline db repo =
      ((get_commits_detail_array db repo).1,
       (get_commits_detail_array db repo).2.1, some e) := by
  rw [runPipeline]
  rcases hg : get_commits_detail_array db repo with ⟨db1, evs1, r1⟩
  have h2 : r1 = some e := by rw [hg] at h; exact h
  subst h2
  rfl

theorem runPipeline_ok {db : Db} {repo : Repository}
    (h : (get_commits_detail_array db repo).2.2 = none) :
    runPipeline db repo =
      ((get_ref_details (get_commits_detail_array db repo).1 repo).1,
       (get_commits_detail_array db repo).2.1 ++
         (get_ref_details (get_commits_detail_array db repo).1 repo).2.1,
       (get_ref_details (get_commits_detail_array db repo).1 repo).2.2) := by
  rw [runPipeline]
  rcases hg : get_commits_detail_array db repo with ⟨db1, evs1, r1⟩
  have h2 : r1 = none := by rw [hg] at h; exact h
  subst h2
  show (match get_ref_details db1 repo with
        | (db2, evs2, r2) => (db2, evs1 ++ evs2, r2)) = _
  rcases hr : get_ref_details db1 repo with ⟨db2, evs2, r2⟩
  rfl

theorem mainRun_schema_err (db : Db) (repo : Repository) (e : String)
    (h : createDatabase db = Except.error e) :
    mainRun false db repo =
      ((runPipeline db repo).1,
       Event.printLine ("Error: " ++ e) :: (runPipeline db repo).2.1,
       (runPipeline db repo).2.2) := by
  show (match createDatabase db with
        | Except.ok db1 =>
          match runPipeline db1 repo with
          | (d, evs, r) =>
            (d, Event.printLine "Database and tables created successfully!" :: evs, r)
        | Except.error e2 =>
          match runPipeline db repo with
          | (d, evs, r) => (d, Event.printLine ("Error: " ++ e2) :: evs, r)) = _
  rw [h]

theorem collectRefChunk_length_le (chunk : List (Except String RawReference)) :
    (collectRefChunk chunk).1.length ≤ chunk.length := by
  induction chunk with
  | nil => simp [collectRefChunk]
  | cons x rest ih =>
    cases x with
    | ok reference =>
      rw [collectRefChunk_cons_ok]
      simpa using ih
    | error e =>
      rw [collectRefChunk_cons_err]
      simp only [List.length_cons]
      omega

theorem batch_insert_refs_small (db : Db) (refs : List RefDetails)
    (hne : refs ≠ []) (hle : refs.length ≤ 50) :
    batch_insert_refs db refs = batch_insert_refs_single db refs := by
  rw [batch_insert_refs, chunksOf_singleton 50 refs hne hle]
  rcases hb : refsTxBody db refs with ⟨evs, res⟩
  cases res with
  | error e =>
    rw [refTxChunksLoop_cons_err hb, batch_insert_refs_single, hb]
  | ok db1 =>
    rw [refTxChunksLoop_cons_ok hb, batch_insert_refs_single, hb]
    simp [refTxChunksLoop]

/-- C5: for every ordered record sequence, chunking by the fixed size 50
    yields chunks of at most 50 records each, none empty, whose in-order
    concatenation is the input (no record dropped, duplicated or
    reordered), and every chunk except possibly the last holds exactly
    50 records. -/
theorem chunking_partition_spec {α : Type} (l : List α) :
    (chunksOf 50 l).flatten = l ∧
    (∀ c ∈ chunksOf 50 l, c.length ≤ 50 ∧ c ≠ []) ∧
    (∀ c ∈ (chunksOf 50 l).dropLast, c.length = 50) :=
  ⟨chunksOf_flatten 50 (by omega) l,
   fun c hc => chunksOf_mem 50 (by omega) l c hc,
   fun c hc => chunksOf_dropLast 50 (by omega) l c hc⟩

theorem chunking_partition_spec_witness :
    (chunksOf 50 (List.range 120)).flatten = List.range 120 :=
  (chunking_partition_spec (List.range 120)).1

/-- C6: normalization is total (the extraction functions are total
    functions into the record types) and substitutes the documented
    fallbacks: missing author name becomes Unknown, missing message
    becomes No message, an unresolvable reference target becomes Unknown,
    and a missing reference name becomes the empty string. -/
theorem normalization_fallbacks (c : RawCommit) (r : RawReference) :
    (c.authorName = none → (extract_commit_details c).author = "Unknown") ∧
    (c.message = none → (extract_commit_details c).message = "No message") ∧
    (r.target = none → (extract_ref_details r).id = "Unknown") ∧
    (r.name = none → (extract_ref_details r).name = "") := by
  refine ⟨?_, ?_, ?_, ?_⟩ <;>
    intro h <;>
    simp [extract_commit_details, extract_ref_details, h]

theorem normalization_fallbacks_witness :
    (extract_commit_details rawOrphanCommit).author = "Unknown" ∧
    (extract_commit_details rawOrphanCommit).message = "No message" ∧
    (extract_ref_details rawBrokenRef).id = "Unknown" ∧
    (extract_ref_details rawBrokenRef).name = "" :=
  ⟨(normalization_fallbacks rawOrphanCommit rawBrokenRef).1 rfl,
   (normalization_fallbacks rawOrphanCommit rawBrokenRef).2.1 rfl,
   (normalization_fallbacks rawOrphanCommit rawBrokenRef).2.2.1 rfl,
   (normalization_fallbacks rawOrphanCommit rawBrokenRef).2.2.2 rfl⟩

/-- C1 counterexample: on the chunk chunkTwo against a destination that
    already holds the second record's key, the batch fails, yet the first
    record's row of the SAME chunk is visible afterwards (the claim
    predicts zero rows of the chunk become visible), and two transactions
    were begun for the one chunk (the claim predicts exactly one). -/
theorem commit_chunk_atomicity_refuted :
    (batch_insert_commits dbWithB chunkTwo).2.2.isSome = true ∧
    ("a", "alice", (0 : Int), "m") ∈ (batch_insert_commits dbWithB chunkTwo).1.commit_details ∧
    (batch_insert_commits dbWithB chunkTwo).2.1.countP Event.isTxBegin = 2 := by
  decide

/-- C1 amended: batch_insert_commits opens one transaction per record
    (not per chunk), inserting the record's commit_details row followed
    by its commit_relation rows and committing; on a failure the records
    split into a fully-visible prefix - including earlier records of the
    same chunk - and a failing record none of whose rows are visible;
    the number of transactions begun equals the number of records
    attempted. -/
theorem commit_per_record_transactions (db : Db) (commits : List CommitDetails) :
    ∃ l1 l2, commits = l1 ++ l2 ∧
      (batch_insert_commits db commits).1 = applyAllCommits db l1 ∧
      ((batch_insert_commits db commits).2.2 = none → l2 = []) ∧
      (∀ e, (batch_insert_commits db commits).2.2 = some e →
        ∃ c cs, l2 = c :: cs ∧
          (commitTxBody (applyAllCommits db l1) c).2 = Except.error e) ∧
      (batch_insert_commits db commits).2.1.countP Event.isTxBegin =
        l1.length + (if (batch_insert_commits db commits).2.2 = none then 0 else 1) :=
  batch_insert_commits_split commits db

theorem commit_per_record_transactions_witness :
    ∃ l1 l2, chunkTwo = l1 ++ l2 ∧
      (batch_insert_commits dbWithB chunkTwo).1 = applyAllCommits dbWithB l1 ∧
      ((batch_insert_commits dbWithB chunkTwo).2.2 = none → l2 = []) ∧
      (∀ e, (batch_insert_commits dbWithB chunkTwo).2.2 = some e →
        ∃ c cs, l2 = c :: cs ∧
          (commitTxBody (applyAllCommits dbWithB l1) c).2 = Except.error e) ∧
      (batch_insert_commits dbWithB chunkTwo).2.1.countP Event.isTxBegin =
        l1.length + (if (batch_insert_commits dbWithB chunkTwo).2.2 = none then 0 else 1) :=
  commit_per_record_transactions dbWithB chunkTwo

/-- C2 counterexample: schema creation against freshDb fails (the tables
    already exist), yet main does not abort: the pipeline runs to
    completion with no error - the process even exits with status zero -
    and pipeline work (the commit insert) was performed. -/
theorem schema_failure_abort_refuted :
    createDatabase freshDb = Except.error "table commit_details already exists" ∧
    (mainRun false freshDb repoSingle).2.2 = none ∧
    (mainRun false freshDb repoSingle).1.commit_details = [("a", "alice", 0, "init")] :=
  ⟨rfl, rfl, rfl⟩

/-- C2 amended: when schema creation fails, main only prints the error
    and continues: the run behaves exactly like the pipeline alone (same
    final state, same exit behaviour), with the diagnostic prepended to
    the output - it does not abort at schema-creation time. -/
theorem schema_failure_continues (db : Db) (repo : Repository) (e : String)
    (h : createDatabase db = Except.error e) :
    mainRun false db repo =
      ((runPipeline db repo).1,
       Event.printLine ("Error: " ++ e) :: (runPipeline db repo).2.1,
       (runPipeline db repo).2.2) :=
  mainRun_schema_err db repo e h

theorem schema_failure_continues_witness :
    mainRun false freshDb repoSingle =
      ((runPipeline freshDb repoSingle).1,
       Event.printLine ("Error: " ++ "table commit_details already exists") ::
         (runPipeline freshDb repoSingle).2.1,
       (runPipeline freshDb repoSingle).2.2) :=
  schema_failure_continues freshDb repoSingle "table commit_details already exists" rfl

/-- C10 counterexample: the reference driver can pass batch_insert_refs
    the empty slice (a chunk whose references all fail to resolve yields
    no records); the inner partition of that slice has zero chunks, not
    one, and the function is not trace-equivalent to the spec's single
    transaction: it opens no transaction at all. -/
theorem refs_inner_chunking_empty_slice :
    (collectRefChunk [Except.error "cannot resolve"]).1 = [] ∧
    (chunksOf 50 ((collectRefChunk [Except.error "cannot resolve"]).1)).length = 0 ∧
    batch_insert_refs freshDb [] ≠ batch_insert_refs_single freshDb [] := by
  decide

/-- C10 amended: every driver-formed slice has at most 50 records; for
    every NON-EMPTY slice of at most 50 the inner partition is exactly
    one chunk and batch_insert_refs is literally the single transaction
    of the spec; for the empty slice no transaction is opened, which
    still agrees with the single transaction on final state and result. -/
theorem batch_insert_refs_single_tx_equiv (db : Db) (refs : List RefDetails)
    (hle : refs.length ≤ 50) :
    (∀ references : List (Except String RawReference),
       ∀ chunk ∈ chunksOf 50 references, (collectRefChunk chunk).1.length ≤ 50) ∧
    (refs ≠ [] → chunksOf 50 refs = [refs] ∧
       batch_insert_refs db refs = batch_insert_refs_single db refs) ∧
    stErr (batch_insert_refs db refs) = stErr (batch_insert_refs_single db refs) := by
  refine ⟨?_, ?_, ?_⟩
  · intro references chunk hc
    exact le_trans (collectRefChunk_length_le chunk)
      (chunksOf_mem 50 (by omega) references chunk hc).1
  · intro hne
    exact ⟨chunksOf_singleton 50 refs hne hle, batch_insert_refs_small db refs hne hle⟩
  · by_cases hne : refs = []
    · subst hne
      rfl
    · rw [batch_insert_refs_small db refs hne hle]

theorem batch_insert_refs_single_tx_equiv_witness :
    (∀ references : List (Except String RawReference),
       ∀ chunk ∈ chunksOf 50 references, (collectRefChunk chunk).1.length ≤ 50) ∧
    ([oneRef] ≠ [] → chunksOf 50 [oneRef] = [[oneRef]] ∧
       batch_insert_refs freshDb [oneRef] = batch_insert_refs_single freshDb [oneRef]) ∧
    stErr (batch_insert_refs freshDb [oneRef]) =
      stErr (batch_insert_refs_single freshDb [oneRef]) :=
  batch_insert_refs_single_tx_equiv freshDb [oneRef] (by decide)

theorem stErr_fst {x y : Db × List Event × Option String} (h : stErr x = stErr y) :
    x.1 = y.1 := by
  have h2 := congrArg Prod.fst h
  simpa [stErr] using h2

theorem stErr_snd {x y : Db × List Event × Option String} (h : stErr x = stErr y) :
    x.2.2 = y.2.2 := by
  have h2 := congrArg Prod.snd h
  simpa [stErr] using h2

theorem runPipeline_commit_tables (repo : Repository) (db : Db) :
    (runPipeline db repo).1.commit_details =
      (get_commits_detail_array db repo).1.commit_details ∧
    (runPipeline db repo).1.commit_relation =
      (get_commits_detail_array db repo).1.commit_relation := by
  cases hc : (get_commits_detail_array db repo).2.2 with
  | some e =>
    rw [runPipeline_err hc]
    exact ⟨rfl, rfl⟩
  | none =>
    rw [runPipeline_ok hc]
    have hpres := get_ref_details_preserves (get_commits_detail_array db repo).1 repo
    exact ⟨hpres.1, hpres.2.1⟩

theorem get_commits_tables (repo : Repository) :
    ∃ l1 l2, commitRecords repo = l1 ++ l2 ∧
      (get_commits_detail_array freshDb repo).1.commit_details = l1.map rowOf ∧
      (get_commits_detail_array freshDb repo).1.commit_relation =
        (l1.map edgesOf).flatten := by
  obtain ⟨l1, l2, heq, hst, _, _, _⟩ :=
    batch_insert_commits_split (commitRecords repo) freshDb
  have hstate : (get_commits_detail_array freshDb repo).1 =
      (batch_insert_commits freshDb (commitRecords repo)).1 :=
    stErr_fst (get_commits_flat freshDb repo)
  refine ⟨l1, l2, heq, ?_, ?_⟩
  · rw [hstate, hst, applyAllCommits_eq]
    simp [freshDb]
  · rw [hstate, hst, applyAllCommits_eq]
    simp [freshDb]

/-- C4: after a successful run from an empty schema-created destination,
    the commit_relation rows are exactly the per-parent edges of the
    persisted commit records (so their count is the sum of parent counts:
    0 for a root, 2 for a two-parent merge), and every edge of a record
    carries that record's own identifier as the child. -/
theorem edge_count_eq_parent_sum (repo : Repository)
    (h : (runPipeline freshDb repo).2.2 = none) :
    (runPipeline freshDb repo).1.commit_relation =
      ((commitRecords repo).map edgesOf).flatten ∧
    (runPipeline freshDb repo).1.commit_relation.length =
      ((commitRecords repo).map (fun c => c.parents.length)).sum ∧
    ∀ c ∈ commitRecords repo, ∀ pc ∈ edgesOf c, pc.2 = c.id := by
  have hcnone : (get_commits_detail_array freshDb repo).2.2 = none := by
    cases hc : (get_commits_detail_array freshDb repo).2.2 with
    | none => rfl
    | some e =>
      rw [runPipeline_err hc] at h
      exact absurd h (by simp)
  have hflat := get_commits_flat freshDb repo
  have hbnone : (batch_insert_commits freshDb (commitRecords repo)).2.2 = none := by
    rw [← stErr_snd hflat]
    exact hcnone
  obtain ⟨l1, l2, heq, hst, hnone, _, _⟩ :=
    batch_insert_commits_split (commitRecords repo) freshDb
  have hl2 : l2 = [] := hnone hbnone
  subst hl2
  rw [List.append_nil] at heq
  have hdbA : (get_commits_detail_array freshDb repo).1 =
      applyAllCommits freshDb (commitRecords repo) := by
    rw [stErr_fst hflat, hst, ← heq]
  have hrelfinal : (runPipeline freshDb repo).1.commit_relation =
      ((commitRecords repo).map edgesOf).flatten := by
    rw [(runPipeline_commit_tables repo freshDb).2, hdbA, applyAllCommits_eq]
    simp [freshDb]
  refine ⟨hrelfinal, ?_, ?_⟩
  · rw [hrelfinal, List.length_flatten, List.map_map]
    have hfun : (List.length ∘ edgesOf) = (fun c : CommitDetails => c.parents.length) := by
      funext c
      simp [edgesOf]
    rw [hfun]
  · intro c _ pc hpc
    rw [edgesOf] at hpc
    obtain ⟨p, _, hpe⟩ := List.mem_map.mp hpc
    rw [← hpe]

theorem edge_count_eq_parent_sum_witness :
    (runPipeline freshDb repoMerge).1.commit_relation =
      ((commitRecords repoMerge).map edgesOf).flatten ∧
    (runPipeline freshDb repoMerge).1.commit_relation.length =
      ((commitRecords repoMerge).map (fun c => c.parents.length)).sum ∧
    ∀ c ∈ commitRecords repoMerge, ∀ pc ∈ edgesOf c, pc.2 = c.id :=
  edge_count_eq_parent_sum repoMerge rfl

/-- C9: from an empty schema-created destination, with the revwalk
    yielding pairwise distinct commit identifiers, after any run -
    completed or aborted - a commit record's commit_details row is only
    visible together with all of that record's commit_relation edges (the
    record's transaction covers exactly that one commit), and every
    visible edge's child identifier has its commit_details row visible. -/
theorem per_commit_transaction_invariant (repo : Repository)
    (hnd : ((commitRecords repo).map (fun c => c.id)).Nodup) :
    (∀ c ∈ commitRecords repo,
        rowOf c ∈ (runPipeline freshDb repo).1.commit_details →
        ∀ p ∈ c.parents, (p, c.id) ∈ (runPipeline freshDb repo).1.commit_relation) ∧
    (∀ pc ∈ (runPipeline freshDb repo).1.commit_relation,
        ∃ row ∈ (runPipeline freshDb repo).1.commit_details, row.1 = pc.2) := by
  obtain ⟨l1, l2, heq, hcd, hcr⟩ := get_commits_tables repo
  obtain ⟨hd, hr⟩ := runPipeline_commit_tables repo freshDb
  constructor
  · intro c hc hrow p hp
    rw [hd, hcd] at hrow
    obtain ⟨c1, hc1, hc1e⟩ := List.mem_map.mp hrow
    have hid : c1.id = c.id := congrArg Prod.fst hc1e
    have hceq : c1 = c := by
      have hc1mem : c1 ∈ commitRecords repo := by
        rw [heq]
        exact List.mem_append_left l2 hc1
      exact List.inj_on_of_nodup_map hnd hc1mem hc hid
    rw [hr, hcr]
    apply List.mem_flatten.mpr
    refine ⟨edgesOf c, List.mem_map_of_mem edgesOf ?_, ?_⟩
    · rw [← hceq]
      exact hc1
    · rw [edgesOf]
      exact List.mem_map_of_mem (fun p => (p, c.id)) hp
  · intro pc hpc
    rw [hr, hcr] at hpc
    obtain ⟨es, hes, hpces⟩ := List.mem_flatten.mp hpc
    obtain ⟨c1, hc1, hc1e⟩ := List.mem_map.mp hes
    rw [← hc1e, edgesOf] at hpces
    obtain ⟨p, _, hpe⟩ := List.mem_map.mp hpces
    refine ⟨rowOf c1, ?_, ?_⟩
    · rw [hd, hcd]
      exact List.mem_map_of_mem rowOf hc1
    · rw [← hpe]
      rfl

theorem per_commit_transaction_invariant_witness :
    (∀ c ∈ commitRecords repoMerge,
        rowOf c ∈ (runPipeline freshDb repoMerge).1.commit_details →
        ∀ p ∈ c.parents, (p, c.id) ∈ (runPipeline freshDb repoMerge).1.commit_relation) ∧
    (∀ pc ∈ (runPipeline freshDb repoMerge).1.commit_relation,
        ∃ row ∈ (runPipeline freshDb repoMerge).1.commit_details, row.1 = pc.2) :=
  per_commit_transaction_invariant repoMerge (by decide)

theorem get_commits_balanced (db : Db) (repo : Repository) :
    runTxState false (get_commits_detail_array db repo).2.1 = some false :=
  commitChunksLoop_balanced (chunksOf 50 repo.revwalk) repo db

theorem get_refs_balanced (db : Db) (repo : Repository) :
    runTxState false (get_ref_details db repo).2.1 = some false :=
  refChunksLoop_balanced (chunksOf 50 repo.references) db

/-- C8: the trace of a run is the commit sub-pipeline's trace followed by
    the reference sub-pipeline's trace - no ref_details insert occurs
    during the commit phase, no commit-table insert occurs afterwards,
    and a commit-phase failure leaves the reference phase unattempted;
    moreover the whole trace respects the strictly sequential transaction
    discipline: at most one transaction is open at a time, every insert
    happens inside one, and each transaction is closed before the next
    begins. -/
theorem phases_sequential_transactions (db : Db) (repo : Repository) :
    (∃ t2, (runPipeline db repo).2.1 = (get_commits_detail_array db repo).2.1 ++ t2 ∧
       (∀ ev ∈ (get_commits_detail_array db repo).2.1, Event.isRefInsert ev = false) ∧
       (∀ ev ∈ t2, Event.isCommitInsert ev = false) ∧
       ((get_commits_detail_array db repo).2.2 ≠ none → t2 = [])) ∧
    runTxState false (runPipeline db repo).2.1 = some false := by
  constructor
  · cases hc : (get_commits_detail_array db repo).2.2 with
    | some e =>
      refine ⟨[], ?_, ?_, ?_, ?_⟩
      · rw [runPipeline_err hc]
        simp
      · exact fun ev hev => commitChunksLoop_events (chunksOf 50 repo.revwalk) repo db ev hev
      · intro ev hev
        simp at hev
      · intro _
        rfl
    | none =>
      refine ⟨(get_ref_details (get_commits_detail_array db repo).1 repo).2.1, ?_, ?_, ?_, ?_⟩
      · rw [runPipeline_ok hc]
      · exact fun ev hev => commitChunksLoop_events (chunksOf 50 repo.revwalk) repo db ev hev
      · exact fun ev hev =>
          refChunksLoop_events (chunksOf 50 repo.references)
            (get_commits_detail_array db repo).1 ev hev
      · intro hne
        exact absurd rfl hne
  · cases hc : (get_commits_detail_array db repo).2.2 with
    | some e =>
      rw [runPipeline_err hc]
      exact get_commits_balanced db repo
    | none =>
      rw [runPipeline_ok hc]
      show runTxState false ((get_commits_detail_array db repo).2.1 ++
        (get_ref_details (get_commits_detail_array db repo).1 repo).2.1) = some false
      rw [runTxState_append, get_commits_balanced db repo]
      exact get_refs_balanced (get_commits_detail_array db repo).1 repo

theorem phases_sequential_transactions_witness :
    (∃ t2, (runPipeline freshDb repoSingle).2.1 =
        (get_commits_detail_array freshDb repoSingle).2.1 ++ t2 ∧
       (∀ ev ∈ (get_commits_detail_array freshDb repoSingle).2.1,
          Event.isRefInsert ev = false) ∧
       (∀ ev ∈ t2, Event.isCommitInsert ev = false) ∧
       ((get_commits_detail_array freshDb repoSingle).2.2 ≠ none → t2 = [])) ∧
    runTxState false (runPipeline freshDb repoSingle).2.1 = some false :=
  phases_sequential_transactions freshDb repoSingle

theorem collectChunk_find (repo repo2 : Repository)
    (h : repo.find_commit = repo2.find_commit) :
    ∀ l, collectChunk repo l = collectChunk repo2 l := by
  intro l
  induction l with
  | nil => rfl
  | cons x rest ih =>
    cases x with
    | ok oid => rw [collectChunk_cons_ok, collectChunk_cons_ok, ih, h]
    | error e => rw [collectChunk_cons_err, collectChunk_cons_err, ih]

/-- C7: an item of the revwalk (or of the reference iterator) that is an
    error is logged and skipped: the collected records are those of the
    remaining items, the diagnostic line is printed, the commit
    sub-pipeline's final state and error are the same as if the offending
    item were absent, and (the complement of the one
    recoverable-and-continue case) a commit-phase insert failure is not
    recovered: it aborts the run with that error. -/
theorem per_item_errors_skipped (db : Db) (repo : Repository)
    (xs ys : List (Except String String)) (as bs : List (Except String RawReference))
    (e1 e2 : String)
    (hrw : repo.revwalk = xs ++ Except.error e1 :: ys)
    (hrefs : repo.references = as ++ Except.error e2 :: bs) :
    (collectChunk repo repo.revwalk).1 = (collectChunk repo (xs ++ ys)).1 ∧
    Event.printLine ("Failed to process commit: " ++ e1) ∈
      (collectChunk repo repo.revwalk).2 ∧
    (collectRefChunk repo.references).1 = (collectRefChunk (as ++ bs)).1 ∧
    Event.printLine ("Failed to process reference: " ++ e2) ∈
      (collectRefChunk repo.references).2 ∧
    stErr (get_commits_detail_array db repo) =
      stErr (get_commits_detail_array db { repo with revwalk := xs ++ ys }) ∧
    (∀ e, (get_commits_detail_array db repo).2.2 = some e →
      (runPipeline db repo).2.2 = some e) := by
  have hrec1 : (collectChunk repo repo.revwalk).1 = (collectChunk repo (xs ++ ys)).1 := by
    rw [hrw, collectChunk_append, collectChunk_append, collectChunk_cons_err]
  have hrefs1 : (collectRefChunk repo.references).1 = (collectRefChunk (as ++ bs)).1 := by
    rw [hrefs, collectRefChunk_append, collectRefChunk_append, collectRefChunk_cons_err]
  refine ⟨hrec1, ?_, hrefs1, ?_, ?_, ?_⟩
  · rw [hrw, collectChunk_append, collectChunk_cons_err]
    refine List.mem_append_right _ ?_
    exact List.mem_cons_self _ _
  · rw [hrefs, collectRefChunk_append, collectRefChunk_cons_err]
    refine List.mem_append_right _ ?_
    exact List.mem_cons_self _ _
  · have hrec2 : commitRecords { repo with revwalk := xs ++ ys } =
        (collectChunk repo (xs ++ ys)).1 := by
      rw [commitRecords]
      exact congrArg Prod.fst
        (collectChunk_find { repo with revwalk := xs ++ ys } repo rfl (xs ++ ys))
    rw [get_commits_flat, get_commits_flat, commitRecords, hrec1, hrec2]
  · intro e he
    rw [runPipeline_err he]

theorem per_item_errors_skipped_witness :
    (collectChunk repoSkip repoSkip.revwalk).1 =
      (collectChunk repoSkip ([] ++ [Except.ok "a"])).1 ∧
    Event.printLine ("Failed to process commit: " ++ "object not found") ∈
      (collectChunk repoSkip repoSkip.revwalk).2 ∧
    (collectRefChunk repoSkip.references).1 = (collectRefChunk ([] ++ [])).1 ∧
    Event.printLine ("Failed to process reference: " ++ "invalid reference") ∈
      (collectRefChunk repoSkip.references).2 ∧
    stErr (get_commits_detail_array freshDb repoSkip) =
      stErr (get_commits_detail_array freshDb
        { repoSkip with revwalk := [] ++ [Except.ok "a"] }) ∧
    (∀ e, (get_commits_detail_array freshDb repoSkip).2.2 = some e →
      (runPipeline freshDb repoSkip).2.2 = some e) :=
  per_item_errors_skipped freshDb repoSkip [] [Except.ok "a"] [] []
    "object not found" "invalid reference" rfl rfl

/-- C3: after a successful run against an empty schema-created
    destination that persisted at least one commit or reference row,
    running the pipeline again fails with the primary-key UNIQUE
    constraint violation of the first duplicate identifier encountered
    (there is no upsert or ignore-conflict path), and the destination is
    left exactly as it was - no duplicate and no updated row is ever
    produced. -/
theorem rerun_primary_key_conflict (repo : Repository) (db1 : Db) (t : List Event)
    (h1 : runPipeline freshDb repo = (db1, t, none))
    (h2 : db1.commit_details ≠ [] ∨ db1.ref_details ≠ []) :
    ∃ e, (runPipeline db1 repo).2.2 = some e ∧
      (e = "UNIQUE constraint failed: commit_details.id" ∨
       e = "UNIQUE constraint failed: ref_details.name, ref_details.id") ∧
      (runPipeline db1 repo).1 = db1 := by
  have hcnone : (get_commits_detail_array freshDb repo).2.2 = none := by
    cases hcc : (get_commits_detail_array freshDb repo).2.2 with
    | none => rfl
    | some e =>
      rw [runPipeline_err hcc] at h1
      have h3 := congrArg (fun x => x.2.2) h1
      simp at h3
  rw [runPipeline_ok hcnone] at h1
  have hdb1 : (get_ref_details (get_commits_detail_array freshDb repo).1 repo).1 = db1 :=
    congrArg (fun x => x.1) h1
  have hrefs_none :
      (get_ref_details (get_commits_detail_array freshDb repo).1 repo).2.2 = none :=
    congrArg (fun x => x.2.2) h1
  have hflat := get_commits_flat freshDb repo
  have hbnone : (batch_insert_commits freshDb (commitRecords repo)).2.2 = none := by
    rw [← stErr_snd hflat]
    exact hcnone
  obtain ⟨l1, l2, heq, hst, hnone, _, _⟩ :=
    batch_insert_commits_split (commitRecords repo) freshDb
  have hl2 : l2 = [] := hnone hbnone
  subst hl2
  rw [List.append_nil] at heq
  have hdbA : (get_commits_detail_array freshDb repo).1 =
      applyAllCommits freshDb (commitRecords repo) := by
    rw [stErr_fst hflat, hst, ← heq]
  have happ := applyAllCommits_eq (commitRecords repo) freshDb
  have hAcd : (get_commits_detail_array freshDb repo).1.commit_details =
      (commitRecords repo).map rowOf := by
    rw [hdbA, happ]
    simp [freshDb]
  have hAref : (get_commits_detail_array freshDb repo).1.ref_details = [] := by
    rw [hdbA, happ]
    rfl
  have hAtbl : (get_commits_detail_array freshDb repo).1.tablesExist = true := by
    rw [hdbA, happ]
    rfl
  have hdb1eq : db1 = { (get_commits_detail_array freshDb repo).1 with
      ref_details := (get_commits_detail_array freshDb repo).1.ref_details ++
        (refRecords repo).map refRowOf } := by
    rw [← hdb1, get_ref_details_none hrefs_none]
  have h1cd : db1.commit_details = (commitRecords repo).map rowOf := by
    rw [hdb1eq]
    exact hAcd
  have h1ref : db1.ref_details = (refRecords repo).map refRowOf := by
    rw [hdb1eq]
    show (get_commits_detail_array freshDb repo).1.ref_details ++ _ = _
    rw [hAref]
    simp
  have h1tbl : db1.tablesExist = true := by
    rw [hdb1eq]
    exact hAtbl
  cases hrec : commitRecords repo with
  | cons c1 cr =>
    have hc1row : rowOf c1 ∈ db1.commit_details := by
      rw [h1cd, hrec, List.map_cons]
      exact List.mem_cons_self _ _
    have hany : db1.commit_details.any (fun row => row.1 == c1.id) = true := by
      rw [List.any_eq_true]
      exact ⟨rowOf c1, hc1row, by simp [rowOf]⟩
    have hins : insertCommitDetailsRow db1 c1 =
        Except.error "UNIQUE constraint failed: commit_details.id" := by
      rw [insertCommitDetailsRow, if_neg (by simp [h1tbl]), if_pos hany]
    have hbatch2 : batch_insert_commits db1 (commitRecords repo) =
        (db1, Event.txBegin :: [Event.insertDetails c1.id] ++ [Event.txRollback],
         some "UNIQUE constraint failed: commit_details.id") := by
      rw [hrec]
      exact batch_insert_commits_cons_err (commitTxBody_eq_err hins)
    have hflat2 := get_commits_flat db1 repo
    have hcom2err : (get_commits_detail_array db1 repo).2.2 =
        some "UNIQUE constraint failed: commit_details.id" := by
      rw [stErr_snd hflat2, hbatch2]
    have hcom2st : (get_commits_detail_array db1 repo).1 = db1 := by
      rw [stErr_fst hflat2, hbatch2]
    refine ⟨"UNIQUE constraint failed: commit_details.id", ?_, Or.inl rfl, ?_⟩
    · rw [runPipeline_err hcom2err]
    · rw [runPipeline_err hcom2err]
      exact hcom2st
  | nil =>
    have hcd_nil : db1.commit_details = [] := by
      rw [h1cd, hrec]
      rfl
    have href_ne : db1.ref_details ≠ [] := by
      rcases h2 with h2 | h2
      · exact absurd hcd_nil h2
      · exact h2
    cases hrr : refRecords repo with
    | nil =>
      rw [h1ref, hrr] at href_ne
      simp at href_ne
    | cons r1 rr =>
      have hr1row : refRowOf r1 ∈ db1.ref_details := by
        rw [h1ref, hrr, List.map_cons]
        exact List.mem_cons_self _ _
      have hanyr : db1.ref_details.any
          (fun row => row.1 == r1.name && row.2.1 == r1.id) = true := by
        rw [List.any_eq_true]
        exact ⟨refRowOf r1, hr1row, by simp [refRowOf]⟩
      have hinsr : insertRefDetailsRow db1 r1 =
          Except.error "UNIQUE constraint failed: ref_details.name, ref_details.id" := by
        rw [insertRefDetailsRow, if_neg (by simp [h1tbl]), if_pos hanyr]
      have hb2 : batch_insert_commits db1 (commitRecords repo) = (db1, [], none) := by
        rw [hrec]
        rfl
      have hflat2 := get_commits_flat db1 repo
      have hcom2none : (get_commits_detail_array db1 repo).2.2 = none := by
        rw [stErr_snd hflat2, hb2]
      have hcom2st : (get_commits_detail_array db1 repo).1 = db1 := by
        rw [stErr_fst hflat2, hb2]
      have hflatrefs : ((chunksOf 50 repo.references).map
          (fun ch => (collectRefChunk ch).1)).flatten = r1 :: rr := by
        rw [collectRefChunk_flatten, chunksOf_flatten 50 (by omega)]
        exact hrr
      have hconf := refChunksLoop_first_conflict (chunksOf 50 repo.references) db1 r1 rr
        "UNIQUE constraint failed: ref_details.name, ref_details.id" hflatrefs hinsr
      refine ⟨"UNIQUE constraint failed: ref_details.name, ref_details.id", ?_,
        Or.inr rfl, ?_⟩
      · rw [runPipeline_ok hcom2none]
        show (get_ref_details (get_commits_detail_array db1 repo).1 repo).2.2 = _
        rw [hcom2st]
        exact hconf.2
      · rw [runPipeline_ok hcom2none]
        show (get_ref_details (get_commits_detail_array db1 repo).1 repo).1 = db1
        rw [hcom2st]
        exact hconf.1

theorem rerun_primary_key_conflict_witness :
    ∃ e, (runPipeline (runPipeline freshDb repoSingle).1 repoSingle).2.2 = some e ∧
      (e = "UNIQUE constraint failed: commit_details.id" ∨
       e = "UNIQUE constraint failed: ref_details.name, ref_details.id") ∧
      (runPipeline (runPipeline freshDb repoSingle).1 repoSingle).1 =
        (runPipeline freshDb repoSingle).1 :=
  rerun_primary_key_conflict repoSingle (runPipeline freshDb repoSingle).1
    (runPipeline freshDb repoSingle).2.1 rfl (Or.inl (by decide))

end GitInfoLlama
